import Mathlib

/-!
Verification of the media-query simulation hook
(`useSimulatedMediaQuery` and its helpers) from the repository source.

The JavaScript source is shallowly embedded: stylesheet state is explicit
(`StyleSheet`, documents are `List StyleSheet`), the DOM mutation methods
`deleteRule`/`insertRule` become list operations, and the global regex
replacement over rule text becomes a character-list scanner with the same
left-to-right, non-overlapping, lazy-match semantics as
`/\((min|max)-width:[^\(]*?\)/g`.
-/

namespace MediaSim

/-- Bool test that `pat` occurs at the very start of `s` (char lists). -/
def leadsWith : List Char → List Char → Bool
  | [], _ => true
  | _ :: _, [] => false
  | a :: as, b :: bs => a == b && leadsWith as bs

/-- Bool test that `pat` occurs somewhere inside `s` (char lists);
this is JavaScript's `String.prototype.includes` / a regex made only of
literal characters. -/
def containsSeq (pat : List Char) : List Char → Bool
  | [] => leadsWith pat []
  | c :: rest => leadsWith pat (c :: rest) || containsSeq pat rest

/-- JavaScript `s.includes(sub)`. -/
def strIncludes (s sub : String) : Bool :=
  containsSeq sub.toList s.toList

/-- A CSSOM rule: its serialized text (`rule.cssText`) and, when it is a
conditional-group (`@media`) rule, the condition text
(`rule.media.mediaText`); `none` models a rule with no `media` member. -/
structure Rule where
  cssText : String
  media : Option String
deriving DecidableEq, Repr

/-- A CSSOM stylesheet: its `href` (`none` models a null href, e.g. an
inline `<style>` element) and its ordered rule list (`cssRules`). -/
structure StyleSheet where
  href : Option String
  cssRules : List Rule
deriving DecidableEq, Repr

def ENABLED_MEDIA_QUERY : String := "(min-width:0px)"

def DISABLED_MEDIA_QUERY : String := "(min-width:999999px)"

/-- The literal substring the source searches for with
`/#start-resizable-editor-section/`. -/
def startMarker : String := "#start-resizable-editor-section"

/-- The literal substring the source searches for with
`/#end-resizable-editor-section/`. -/
def endMarker : String := "#end-resizable-editor-section"

def minHead : List Char := "(min-width:".toList

def maxHead : List Char := "(max-width:".toList

/-- The body scan of the regex `[^\(]*?\)` starting right after
`(min-width:` / `(max-width:`: lazily consume characters that are not
`(` until the first `)`.  Returns the consumed characters (including the
closing paren) and the remainder; `none` when a `(` or the end of input
is reached first. -/
def scanBody : List Char → Option (List Char × List Char)
  | [] => none
  | c :: rest =>
    if c = ')' then some ([')'], rest)
    else if c = '(' then none
    else
      match scanBody rest with
      | some (b, r) => some (c :: b, r)
      | none => none

/-- One attempted match of `/\((min|max)-width:[^\(]*?\)/` at the head of
the character list: on success, the matched substring and the rest. -/
def matchWidthClauseAt (cs : List Char) : Option (List Char × List Char) :=
  if leadsWith minHead cs then
    match scanBody (cs.drop 11) with
    | some (b, r) => some (minHead ++ b, r)
    | none => none
  else if leadsWith maxHead cs then
    match scanBody (cs.drop 11) with
    | some (b, r) => some (maxHead ++ b, r)
    | none => none
  else none

/-- Truthiness of `text.match(VALID_MEDIA_QUERY_REGEX)`: at least one
position of the text matches the width-clause regex. -/
def hasWidthClauseChars : List Char → Bool
  | [] => false
  | c :: rest => (matchWidthClauseAt (c :: rest)).isSome || hasWidthClauseChars rest

/-- Source `isReplaceableMediaRule`: the rule has a `media` member and its
`mediaText` matches `VALID_MEDIA_QUERY_REGEX`. -/
def isReplaceableMediaRule (rule : Rule) : Bool :=
  match rule.media with
  | none => false
  | some m => hasWidthClauseChars m.toList

/-- Parse a nonempty all-digit character list as a decimal `Nat`. -/
def parseNatDigitsAux : List Char → Nat → Option Nat
  | [], acc => some acc
  | c :: rest, acc =>
    if c.isDigit then parseNatDigitsAux rest (acc * 10 + (c.toNat - 48))
    else none

def parseNatDigits : List Char → Option Nat
  | [] => none
  | c :: rest => parseNatDigitsAux (c :: rest) 0

/-- Parse a CSS pixel length value such as `500px` (digits followed by the
`px` unit) into its numeric value. -/
def parsePxValue (cs : List Char) : Option Nat :=
  match cs.reverse with
  | 'x' :: 'p' :: revDigits => parseNatDigits revDigits.reverse
  | _ => none

/-- Modelled from the spec: the external `css-mediaquery` collaborator
(`match` from the `css-mediaquery` package, §6 of the spec: "a CSS
media-query matching utility that, given a condition string and a
feature-value map, returns whether the condition matches").  For the
only condition strings the source ever passes it — single substrings
matched by `VALID_MEDIA_QUERY_REGEX` — a `(min-width:V)` clause matches
iff `width ≥ V` and a `(max-width:V)` clause matches iff `width ≤ V`
(standard CSS media-feature range semantics); a clause whose value is
not a well-formed integer pixel length matches nothing. -/
def cssMediaQueryMatch (clause : String) (width : Nat) : Bool :=
  let cs := clause.toList
  if leadsWith minHead cs then
    match parsePxValue ((cs.drop 11).dropLast) with
    | some v => decide (v ≤ width)
    | none => false
  else if leadsWith maxHead cs then
    match parsePxValue ((cs.drop 11).dropLast) with
    | some v => decide (width ≤ v)
    | none => false
  else false

/-- The replacement callback of `replaceMediaQueryWithWidthEvaluation`:
the matched substring becomes `ENABLED_MEDIA_QUERY` when it matches the
simulated width and `DISABLED_MEDIA_QUERY` otherwise. -/
def widthClauseReplacement (widthValue : Nat) (m : List Char) : List Char :=
  if cssMediaQueryMatch (String.mk m) widthValue then ENABLED_MEDIA_QUERY.toList
  else DISABLED_MEDIA_QUERY.toList

/-- The global regex replacement loop: at each position try the regex; on
a match emit the replacement and continue after the match, otherwise copy
one character and move on.  The fuel argument only bounds recursion depth;
`fuel ≥ cs.length` makes it inexhaustible because every step consumes at
least one character. -/
def rewriteAux (widthValue : Nat) : Nat → List Char → List Char
  | 0, cs => cs
  | _ + 1, [] => []
  | fuel + 1, c :: rest =>
    match matchWidthClauseAt (c :: rest) with
    | some (m, r) => widthClauseReplacement widthValue m ++ rewriteAux widthValue fuel r
    | none => c :: rewriteAux widthValue fuel rest

def rewriteChars (widthValue : Nat) (cs : List Char) : List Char :=
  rewriteAux widthValue cs.length cs

/-- Source `replaceMediaQueryWithWidthEvaluation`:
`ruleText.replace(VALID_MEDIA_QUERY_REGEX, cb)` where `cb` maps each
matched clause to the enabled or disabled form. -/
def replaceMediaQueryWithWidthEvaluation (ruleText : String) (widthValue : Nat) : String :=
  String.mk (rewriteChars widthValue ruleText.toList)

/-- Modelled from the spec: the browser CSSOM collaborator behind
`insertRule` (§3 of the spec: a rule "has a textual representation and,
if it is a conditional-group rule, a condition string").  Inserting rule
text yields a rule whose `cssText` is that text; when the text is an
`@media` rule the text between `@media ` and the first `\x7b` (with
trailing blanks removed) becomes the condition (`media.mediaText`),
otherwise the rule has no `media` member. -/
def parseRule (text : String) : Rule :=
  let cs := text.toList
  if leadsWith ("@media ".toList) cs then
    { cssText := text
      media := some (String.mk
        ((((cs.drop 7).takeWhile (fun c => c ≠ '\x7b')).reverse.dropWhile
          (fun c => c = ' ')).reverse)) }
  else
    { cssText := text, media := none }

/-- Source `replaceRule`: `styleSheet.deleteRule(index)` followed by
`styleSheet.insertRule(newRuleText, index)`. -/
def replaceRule (styleSheet : StyleSheet) (newRuleText : String) (index : Nat) : StyleSheet :=
  { styleSheet with
    cssRules := (styleSheet.cssRules.eraseIdx index).insertIdx index (parseRule newRuleText) }

/-- The filter predicate of `getStyleSheetsThatMatchHostname`:
`styleSheet.href && styleSheet.href.includes(window.location.hostname)`
(a null or empty href is falsy). -/
def sheetMatchesHostname (hostname : String) (styleSheet : StyleSheet) : Bool :=
  match styleSheet.href with
  | none => false
  | some h => (!(h == "")) && strIncludes h hostname

/-- Source `getStyleSheetsThatMatchHostname`. -/
def getStyleSheetsThatMatchHostname (hostname : String) (doc : List StyleSheet) : List StyleSheet :=
  doc.filter (sheetMatchesHostname hostname)

/-- The document positions of the sheets selected by
`getStyleSheetsThatMatchHostname`, in order: position `fi` of this list
is the document index of the sheet the source's `styleSheets[fi]`
reference points at. -/
def matchedIndices (hostname : String) (doc : List StyleSheet) : List Nat :=
  (List.range doc.length).filter fun i =>
    match doc.get? i with
    | some s => sheetMatchesHostname hostname s
    | none => false

/-- JavaScript sparse-array assignment `a[i] = v` on a sparse array
modelled as a list of options. -/
def setSparse : List (Option String) → Nat → String → List (Option String)
  | [], 0, v => [some v]
  | [], n + 1, v => none :: setSparse [] n v
  | _ :: t, 0, v => some v :: t
  | h :: t, n + 1, v => h :: setSparse t n v

/-- Reading `a[i]` from a sparse array: holes and out-of-range reads are
`undefined`, i.e. `none`. -/
def sparseGetL (l : List (Option String)) (j : Nat) : Option String :=
  (l.get? j).getD none

/-- The body of the `for` loop of `useSimulatedMediaQuery` over one
stylesheet: walk `ruleIndex` upward, maintain the `relevantSection`
flag from the region markers, and for every replaceable media rule in
an open region record its text in the sparse originals array and
replace it with its width evaluation.  `originals = none` models the
state before `originalStyles[styleSheetIndex]` was assigned.  Fuel only
bounds the recursion; `fuel ≥ cssRules.length` never runs out because
replacement keeps the rule count constant. -/
def activateScanAux (width : Nat) :
    Nat → Nat → Bool → StyleSheet → Option (List (Option String)) →
    StyleSheet × Option (List (Option String))
  | 0, _, _, sheet, originals => (sheet, originals)
  | fuel + 1, ruleIndex, relevantSection, sheet, originals =>
    match sheet.cssRules.get? ruleIndex with
    | none => (sheet, originals)
    | some rule =>
      let r1 := relevantSection || strIncludes rule.cssText startMarker
      let r2 := r1 && !(strIncludes rule.cssText endMarker)
      if !r2 || !(isReplaceableMediaRule rule) then
        activateScanAux width fuel (ruleIndex + 1) r2 sheet originals
      else
        let ruleText := rule.cssText
        let originals' := some (setSparse (originals.getD []) ruleIndex ruleText)
        let sheet' := replaceRule sheet (replaceMediaQueryWithWidthEvaluation ruleText width) ruleIndex
        activateScanAux width fuel (ruleIndex + 1) r2 sheet' originals'

/-- Activation pass over one stylesheet: rule scan from index 0 with the
region flag off and no originals recorded yet. -/
def activateSheet (width : Nat) (sheet : StyleSheet) :
    StyleSheet × Option (List (Option String)) :=
  activateScanAux width sheet.cssRules.length 0 false sheet none

/-- The `styleSheets.forEach` of the activation effect, with the filtered
sheets given by their document indices: each selected sheet is scanned
and its (possibly absent) originals entry appended at its
`styleSheetIndex` position. -/
def activateDocGo (width : Nat) :
    List Nat → List StyleSheet → List (Option (List (Option String))) →
    List StyleSheet × List (Option (List (Option String)))
  | [], doc, acc => (doc, acc)
  | i :: rest, doc, acc =>
    match doc.get? i with
    | some s =>
      activateDocGo width rest (doc.set i (activateSheet width s).1)
        (acc ++ [(activateSheet width s).2])
    | none => activateDocGo width rest doc (acc ++ [none])

/-- The whole activation effect of `useSimulatedMediaQuery(width)`:
select the same-hostname sheets, rewrite each, and return the new
document together with the `originalStyles` array. -/
def activateDoc (hostname : String) (width : Nat) (doc : List StyleSheet) :
    List StyleSheet × List (Option (List (Option String))) :=
  activateDocGo width (matchedIndices hostname doc) doc []

/-- The inner restoration loop of the cleanup closure over one recorded
collection: for each index, a recorded original text that is truthy
(defined and nonempty) is written back with `replaceRule`. -/
def restoreSheetGo : List (Option String) → Nat → StyleSheet → StyleSheet
  | [], _, sheet => sheet
  | none :: rest, i, sheet => restoreSheetGo rest (i + 1) sheet
  | some t :: rest, i, sheet =>
    restoreSheetGo rest (i + 1) (if t = "" then sheet else replaceRule sheet t i)

def restoreSheet (rulesCollection : List (Option String)) (sheet : StyleSheet) : StyleSheet :=
  restoreSheetGo rulesCollection 0 sheet

/-- `styleSheets[styleSheetIndex]` lookup plus in-place mutation: apply
`f` to the sheet at document index `i` (no-op when out of range). -/
def updateSheetAt (doc : List StyleSheet) (i : Nat) (f : StyleSheet → StyleSheet) :
    List StyleSheet :=
  match doc.get? i with
  | some s => doc.set i (f s)
  | none => doc

/-- The `originalStyles.forEach` of the cleanup closure: walk the
recorded collections together with the captured sheet references (given
as document indices); skip holes, restore the rest. -/
def deactivateDocGo :
    List (Option (List (Option String))) → List Nat → List StyleSheet → List StyleSheet
  | [], _, doc => doc
  | _ :: _, [], doc => doc
  | none :: rest, _ :: irest, doc => deactivateDocGo rest irest doc
  | some coll :: rest, i :: irest, doc =>
    deactivateDocGo rest irest (updateSheetAt doc i (restoreSheet coll))

/-- The whole cleanup effect of `useSimulatedMediaQuery`: `sheetIdxs` are
the document indices of the `styleSheets` array captured at activation
time. -/
def deactivateDoc (sheetIdxs : List Nat)
    (originalStyles : List (Option (List (Option String))))
    (doc : List StyleSheet) : List StyleSheet :=
  deactivateDocGo originalStyles sheetIdxs doc

/-- Rule `j` of the sheet at document index `i`. -/
def docRule (doc : List StyleSheet) (i j : Nat) : Option Rule :=
  match doc.get? i with
  | some s => s.cssRules.get? j
  | none => none

/-- The saved-original entry keyed by (stylesheet index `fi`, rule index
`j`) inside an `originalStyles` array. -/
def origEntry (originalStyles : List (Option (List (Option String)))) (fi j : Nat) :
    Option String :=
  match originalStyles.get? fi with
  | some (some coll) => sparseGetL coll j
  | _ => none

/-- The sequence of rule texts of a sheet. -/
def sheetTexts (s : StyleSheet) : List String :=
  s.cssRules.map Rule.cssText

/-- No rule of `s` at an index `≤ j` has the start marker in its text. -/
def noStartMarkerBelow (s : StyleSheet) (j : Nat) : Bool :=
  (s.cssRules.take (j + 1)).all fun r => !(strIncludes r.cssText startMarker)

/-- Rule `e` (with `e ≤ j`) has the end marker in its text and no rule at
an index in `(e, j]` has the start marker. -/
def endThenNoStart (s : StyleSheet) (e j : Nat) : Bool :=
  (match s.cssRules.get? e with
    | some r => strIncludes r.cssText endMarker
    | none => false) &&
  decide (e ≤ j) &&
  (((s.cssRules.take (j + 1)).drop (e + 1)).all fun r => !(strIncludes r.cssText startMarker))

/-- No position strictly inside `a` (when followed by `rest`) starts a
width-clause match: every character of `a` is copied verbatim by the
global replacement. -/
def noClauseStartWithin : List Char → List Char → Bool
  | [], _ => true
  | c :: t, rest => (matchWidthClauseAt (c :: (t ++ rest))).isNone && noClauseStartWithin t rest

/-- Reading `originals[j]` where `originals` may itself still be
`undefined` (the sheet's collection was never created). -/
def sparseGetO (o : Option (List (Option String))) (j : Nat) : Option String :=
  match o with
  | none => none
  | some l => sparseGetL l j

/-- Invariant of the activation scan over one sheet, relating the
original sheet `s0`, the current sheet `s` and the originals collection
`o` when the scan is about to process `ruleIndex = idx`: hrefs and rule
counts agree, the unscanned region is untouched, every recorded entry
holds the original rule text of an already-scanned position whose
current rule is the installed width evaluation, and every position
without an entry is untouched. -/
structure ScanInv (w : Nat) (s0 s : StyleSheet) (o : Option (List (Option String)))
    (idx : Nat) : Prop where
  href_eq : s.href = s0.href
  len_eq : s.cssRules.length = s0.cssRules.length
  high_eq : ∀ j, idx ≤ j → s.cssRules.get? j = s0.cssRules.get? j
  saved : ∀ j t, sparseGetO o j = some t →
    j < idx ∧ (∃ r0, s0.cssRules.get? j = some r0 ∧ t = r0.cssText) ∧
    s.cssRules.get? j = some (parseRule (replaceMediaQueryWithWidthEvaluation t w))
  unsaved : ∀ j, sparseGetO o j = none → s.cssRules.get? j = s0.cssRules.get? j

/-! Basic lemmas about the regex scanner and the rewrite loop -/

theorem leadsWith_append (p t : List Char) : leadsWith p (p ++ t) = true := by
  induction p with
  | nil => rfl
  | cons c cs ih => simp [leadsWith, ih]

theorem scanBody_rest_length :
    ∀ (l b r : List Char), scanBody l = some (b, r) → r.length < l.length := by
  intro l
  induction l with
  | nil => intro b r h; simp [scanBody] at h
  | cons c rest ih =>
    intro b r h
    simp only [scanBody] at h
    split at h
    · obtain ⟨hb, hr⟩ := Option.some.inj h |> Prod.mk.inj
      subst hr
      simp
    · split at h
      · exact absurd h (by simp)
      · cases hs : scanBody rest with
        | none => simp [hs] at h
        | some p =>
          obtain ⟨b', r'⟩ := p
          simp only [hs] at h
          obtain ⟨hb, hr⟩ := Option.some.inj h |> Prod.mk.inj
          rw [← hr]
          exact Nat.lt_succ_of_lt (ih b' r' hs)

theorem matchWidthClauseAt_rest_length (cs m r : List Char)
    (h : matchWidthClauseAt cs = some (m, r)) : r.length < cs.length := by
  unfold matchWidthClauseAt at h
  have hdrop : (cs.drop 11).length ≤ cs.length := by
    simp [List.length_drop]
  split at h
  · cases hs : scanBody (cs.drop 11) with
    | none => simp [hs] at h
    | some p =>
      obtain ⟨b, r'⟩ := p
      simp only [hs] at h
      obtain ⟨hm, hr⟩ := Option.some.inj h |> Prod.mk.inj
      subst hr
      have := scanBody_rest_length _ _ _ hs
      omega
  · split at h
    · cases hs : scanBody (cs.drop 11) with
      | none => simp [hs] at h
      | some p =>
        obtain ⟨b, r'⟩ := p
        simp only [hs] at h
        obtain ⟨hm, hr⟩ := Option.some.inj h |> Prod.mk.inj
        subst hr
        have := scanBody_rest_length _ _ _ hs
        omega
    · exact absurd h (by simp)

theorem rewriteAux_fuel_eq (w : Nat) :
    ∀ (fuel₁ : Nat) (fuel₂ : Nat) (cs : List Char), cs.length ≤ fuel₁ → cs.length ≤ fuel₂ →
      rewriteAux w fuel₁ cs = rewriteAux w fuel₂ cs := by
  intro fuel₁
  induction fuel₁ with
  | zero =>
    intro fuel₂ cs h1 h2
    have : cs = [] := List.length_eq_zero.mp (Nat.le_zero.mp h1)
    subst this
    cases fuel₂ <;> rfl
  | succ f ih =>
    intro fuel₂ cs h1 h2
    cases cs with
    | nil => cases fuel₂ <;> rfl
    | cons c rest =>
      cases fuel₂ with
      | zero => simp at h2
      | succ f₂ =>
        simp only [rewriteAux]
        cases hm : matchWidthClauseAt (c :: rest) with
        | none =>
          have : rest.length ≤ f := by simp at h1; omega
          have h2' : rest.length ≤ f₂ := by simp at h2; omega
          rw [ih f₂ rest this h2']
        | some p =>
          obtain ⟨m, r⟩ := p
          have hlt := matchWidthClauseAt_rest_length _ _ _ hm
          have : r.length ≤ f := by simp at h1 hlt; omega
          have h2' : r.length ≤ f₂ := by simp at h2 hlt; omega
          dsimp only
          rw [ih f₂ r this h2']

theorem rewriteChars_nil (w : Nat) : rewriteChars w [] = [] := rfl

theorem rewriteChars_match (w : Nat) (cs m r : List Char)
    (h : matchWidthClauseAt cs = some (m, r)) :
    rewriteChars w cs = widthClauseReplacement w m ++ rewriteChars w r := by
  cases cs with
  | nil => simp [matchWidthClauseAt, minHead, maxHead, leadsWith] at h
  | cons c rest =>
    have hlt := matchWidthClauseAt_rest_length _ _ _ h
    unfold rewriteChars
    simp only [List.length_cons, rewriteAux, h]
    congr 1
    exact rewriteAux_fuel_eq w rest.length r.length r (by simp at hlt; omega) (le_refl _)

theorem rewriteChars_nomatch (w : Nat) (c : Char) (rest : List Char)
    (h : matchWidthClauseAt (c :: rest) = none) :
    rewriteChars w (c :: rest) = c :: rewriteChars w rest := by
  unfold rewriteChars
  simp only [List.length_cons, rewriteAux, h]

theorem rewriteChars_skip (w : Nat) (a rest : List Char)
    (h : noClauseStartWithin a rest = true) :
    rewriteChars w (a ++ rest) = a ++ rewriteChars w rest := by
  induction a with
  | nil => simp
  | cons c t ih =>
    simp only [noClauseStartWithin, Bool.and_eq_true] at h
    obtain ⟨h1, h2⟩ := h
    have hnone : matchWidthClauseAt (c :: (t ++ rest)) = none :=
      Option.isNone_iff_eq_none.mp h1
    simp only [List.cons_append]
    rw [rewriteChars_nomatch w c (t ++ rest) hnone, ih h2]

theorem rewriteChars_of_noClause (w : Nat) (b : List Char)
    (h : noClauseStartWithin b [] = true) : rewriteChars w b = b := by
  have h2 := rewriteChars_skip w b [] h
  have h0 : rewriteChars w [] = [] := rfl
  rw [h0] at h2
  simpa using h2

/-! Lemmas about width clauses built from a pixel value -/

theorem parseNatDigitsAux_digits :
    ∀ (cs : List Char) (acc v : Nat), parseNatDigitsAux cs acc = some v →
      ∀ c ∈ cs, c.isDigit = true := by
  intro cs
  induction cs with
  | nil => intro acc v _ c hc; simp at hc
  | cons d t ih =>
    intro acc v h c hc
    simp only [parseNatDigitsAux] at h
    by_cases hd : d.isDigit
    · rw [if_pos hd] at h
      rcases List.mem_cons.mp hc with hc | hc
      · rw [hc]; exact hd
      · exact ih _ v h c hc
    · rw [if_neg hd] at h
      exact absurd h (by simp)

theorem parseNatDigits_digits (cs : List Char) (v : Nat)
    (h : parseNatDigits cs = some v) : ∀ c ∈ cs, c.isDigit = true := by
  cases cs with
  | nil => intro c hc; simp at hc
  | cons d t => exact parseNatDigitsAux_digits (d :: t) 0 v h

theorem digit_ne_paren (c : Char) (h : c.isDigit = true) : c ≠ '(' ∧ c ≠ ')' := by
  constructor <;> intro hc <;> subst hc <;> exact absurd h (by decide)

theorem scanBody_append (l r : List Char) (hl : ∀ c ∈ l, c ≠ '(' ∧ c ≠ ')') :
    scanBody (l ++ ')' :: r) = some (l ++ [')'], r) := by
  induction l with
  | nil => simp [scanBody]
  | cons c t ih =>
    have hc := hl c (by simp)
    have ht : ∀ x ∈ t, x ≠ '(' ∧ x ≠ ')' := fun x hx => hl x (List.mem_cons_of_mem _ hx)
    simp only [List.cons_append, scanBody, if_neg hc.2, if_neg hc.1, List.append_eq, ih ht]

theorem matchWidthClauseAt_min (body r : List Char)
    (hb : ∀ c ∈ body, c ≠ '(' ∧ c ≠ ')') :
    matchWidthClauseAt (minHead ++ (body ++ ')' :: r)) = some (minHead ++ (body ++ [')']), r) := by
  unfold matchWidthClauseAt
  rw [if_pos (leadsWith_append minHead (body ++ ')' :: r))]
  have hdrop : (minHead ++ (body ++ ')' :: r)).drop 11 = body ++ ')' :: r := by
    have : (11 : Nat) = minHead.length := rfl
    rw [this, List.drop_left]
  rw [hdrop, scanBody_append body r hb]

theorem matchWidthClauseAt_max (body r : List Char)
    (hb : ∀ c ∈ body, c ≠ '(' ∧ c ≠ ')') :
    matchWidthClauseAt (maxHead ++ (body ++ ')' :: r)) = some (maxHead ++ (body ++ [')']), r) := by
  unfold matchWidthClauseAt
  have hmin : leadsWith minHead (maxHead ++ (body ++ ')' :: r)) = false := rfl
  rw [hmin]
  simp only [Bool.false_eq_true, if_false]
  rw [if_pos (leadsWith_append maxHead (body ++ ')' :: r))]
  have hdrop : (maxHead ++ (body ++ ')' :: r)).drop 11 = body ++ ')' :: r := by
    have : (11 : Nat) = maxHead.length := rfl
    rw [this, List.drop_left]
  rw [hdrop, scanBody_append body r hb]

theorem parsePxValue_append (ds : List Char) :
    parsePxValue (ds ++ ['p', 'x']) = parseNatDigits ds := by
  unfold parsePxValue
  rw [List.reverse_append]
  simp [parseNatDigits]

theorem cssMediaQueryMatch_min (ds : List Char) (v w : Nat)
    (h : parseNatDigits ds = some v) :
    cssMediaQueryMatch (String.mk (minHead ++ ((ds ++ ['p', 'x']) ++ [')']))) w
      = decide (v ≤ w) := by
  unfold cssMediaQueryMatch
  have htl : (String.mk (minHead ++ ((ds ++ ['p', 'x']) ++ [')']))).toList
      = minHead ++ ((ds ++ ['p', 'x']) ++ [')']) := rfl
  rw [htl, if_pos (leadsWith_append _ _)]
  have hdrop : (minHead ++ ((ds ++ ['p', 'x']) ++ [')'])).drop 11 = (ds ++ ['p', 'x']) ++ [')'] := by
    have : (11 : Nat) = minHead.length := rfl
    rw [this, List.drop_left]
  rw [hdrop]
  have hlast : ((ds ++ ['p', 'x']) ++ [')']).dropLast = ds ++ ['p', 'x'] := by
    simp
  rw [hlast, parsePxValue_append, h]

theorem cssMediaQueryMatch_max (ds : List Char) (v w : Nat)
    (h : parseNatDigits ds = some v) :
    cssMediaQueryMatch (String.mk (maxHead ++ ((ds ++ ['p', 'x']) ++ [')']))) w
      = decide (w ≤ v) := by
  unfold cssMediaQueryMatch
  have htl : (String.mk (maxHead ++ ((ds ++ ['p', 'x']) ++ [')']))).toList
      = maxHead ++ ((ds ++ ['p', 'x']) ++ [')']) := rfl
  rw [htl]
  dsimp only
  have hmin : leadsWith minHead (maxHead ++ ((ds ++ ['p', 'x']) ++ [')'])) = false := rfl
  rw [hmin]
  simp only [Bool.false_eq_true, if_false]
  rw [if_pos (leadsWith_append _ _)]
  have hdrop : (maxHead ++ ((ds ++ ['p', 'x']) ++ [')'])).drop 11 = (ds ++ ['p', 'x']) ++ [')'] := by
    have : (11 : Nat) = maxHead.length := rfl
    rw [this, List.drop_left]
  rw [hdrop]
  have hlast : ((ds ++ ['p', 'x']) ++ [')']).dropLast = ds ++ ['p', 'x'] := by
    simp
  rw [hlast, parsePxValue_append, h]

/-! List kit: positional reads after writes -/

theorem lk_get?_some_lt {α : Type} (l : List α) (n : Nat) (a : α)
    (h : l.get? n = some a) : n < l.length := by
  obtain ⟨h', _⟩ := List.get?_eq_some.mp h
  exact h'

theorem lk_get?_of_lt {α : Type} :
    ∀ (l : List α) (n : Nat), n < l.length → ∃ a, l.get? n = some a := by
  intro l
  induction l with
  | nil => intro n h; simp at h
  | cons x xs ih =>
    intro n h
    cases n with
    | zero => exact ⟨x, rfl⟩
    | succ m => exact ih m (by simp at h; omega)

theorem lk_get?_set_self {α : Type} :
    ∀ (l : List α) (i : Nat) (a : α), i < l.length → (l.set i a).get? i = some a := by
  intro l
  induction l with
  | nil => intro i a h; simp at h
  | cons x xs ih =>
    intro i a h
    cases i with
    | zero => rfl
    | succ n => exact ih n a (by simp at h; omega)

theorem lk_get?_set_ne {α : Type} :
    ∀ (l : List α) (i j : Nat) (a : α), i ≠ j → (l.set i a).get? j = l.get? j := by
  intro l
  induction l with
  | nil => intro i j a _; rfl
  | cons x xs ih =>
    intro i j a h
    cases i with
    | zero =>
      cases j with
      | zero => exact absurd rfl h
      | succ m => rfl
    | succ n =>
      cases j with
      | zero => rfl
      | succ m => exact ih n m a (by omega)

theorem eraseIdx_insertIdx_eq_set {α : Type} :
    ∀ (l : List α) (i : Nat) (a : α), i < l.length →
      (l.eraseIdx i).insertIdx i a = l.set i a := by
  intro l
  induction l with
  | nil => intro i a h; simp at h
  | cons x xs ih =>
    intro i a h
    cases i with
    | zero => rfl
    | succ n =>
      have hn : n < xs.length := by simp at h; omega
      show x :: (xs.eraseIdx n).insertIdx n a = x :: xs.set n a
      rw [ih n a hn]

/-! replaceRule as a positional overwrite -/

theorem replaceRule_eq_set (s : StyleSheet) (t : String) (i : Nat)
    (h : i < s.cssRules.length) :
    replaceRule s t i = { s with cssRules := s.cssRules.set i (parseRule t) } := by
  unfold replaceRule
  rw [eraseIdx_insertIdx_eq_set _ _ _ h]

theorem replaceRule_href (s : StyleSheet) (t : String) (i : Nat) :
    (replaceRule s t i).href = s.href := rfl

theorem replaceRule_length (s : StyleSheet) (t : String) (i : Nat)
    (h : i < s.cssRules.length) :
    (replaceRule s t i).cssRules.length = s.cssRules.length := by
  rw [replaceRule_eq_set s t i h]
  exact List.length_set _ _ _

/-! Sparse array lemmas -/

theorem sparseGetL_nil (j : Nat) : sparseGetL [] j = none := rfl

theorem sparseGetL_setSparse :
    ∀ (l : List (Option String)) (i j : Nat) (v : String),
      sparseGetL (setSparse l i v) j = if j = i then some v else sparseGetL l j := by
  intro l
  induction l with
  | nil =>
    intro i j v
    induction i generalizing j with
    | zero =>
      cases j with
      | zero => rfl
      | succ m => rw [if_neg (by omega)]; rfl
    | succ n ihn =>
      cases j with
      | zero => rw [if_neg (by omega)]; rfl
      | succ m =>
        show sparseGetL (setSparse [] n v) m
          = if m + 1 = n + 1 then some v else sparseGetL [] (m + 1)
        rw [ihn m]
        by_cases hm : m = n
        · rw [if_pos hm, if_pos (by omega)]
        · rw [if_neg hm, if_neg (by omega)]; rfl
  | cons h t ih =>
    intro i j v
    cases i with
    | zero =>
      cases j with
      | zero => rfl
      | succ m => rw [if_neg (by omega)]; rfl
    | succ n =>
      cases j with
      | zero => rw [if_neg (by omega)]; rfl
      | succ m =>
        show sparseGetL (setSparse t n v) m
          = if m + 1 = n + 1 then some v else sparseGetL t m
        rw [ih n m v]
        by_cases hm : m = n
        · rw [if_pos hm, if_pos (by omega)]
        · rw [if_neg hm, if_neg (by omega)]

theorem sparseGetO_getD (o : Option (List (Option String))) (j : Nat) :
    sparseGetL (o.getD []) j = sparseGetO o j := by
  cases o <;> rfl

/-! The activation scan invariant -/

theorem scanInv_init (w : Nat) (s : StyleSheet) : ScanInv w s s none 0 :=
  ⟨rfl, rfl, fun _ _ => rfl, fun j t ht => by simp [sparseGetO] at ht, fun _ _ => rfl⟩

theorem ScanInv.mono {w : Nat} {s0 s : StyleSheet} {o : Option (List (Option String))}
    {idx idx' : Nat} (h : ScanInv w s0 s o idx) (hle : idx ≤ idx') : ScanInv w s0 s o idx' :=
  ⟨h.href_eq, h.len_eq, fun j hj => h.high_eq j (Nat.le_trans hle hj),
   fun j t ht =>
     ⟨Nat.lt_of_lt_of_le (h.saved j t ht).1 hle, (h.saved j t ht).2.1, (h.saved j t ht).2.2⟩,
   h.unsaved⟩

theorem activateScanAux_inv (w : Nat) (s0 : StyleSheet) :
    ∀ (fuel idx : Nat) (rs : Bool) (s : StyleSheet) (o : Option (List (Option String))),
      ScanInv w s0 s o idx →
      ScanInv w s0 (activateScanAux w fuel idx rs s o).1 (activateScanAux w fuel idx rs s o).2
        (idx + fuel) := by
  intro fuel
  induction fuel with
  | zero => intro idx rs s o h; exact h.mono (by omega)
  | succ f ih =>
    intro idx rs s o h
    simp only [activateScanAux]
    cases hr : s.cssRules.get? idx with
    | none => exact h.mono (by omega)
    | some rule =>
      dsimp only
      split
      · have heq : idx + 1 + f = idx + (f + 1) := by omega
        exact heq ▸ ih (idx + 1) _ s o (h.mono (by omega))
      · have hidx : idx < s.cssRules.length := lk_get?_some_lt _ _ _ hr
        have hs0idx : s0.cssRules.get? idx = some rule := by
          rw [← h.high_eq idx (Nat.le_refl idx)]; exact hr
        have hset := replaceRule_eq_set s (replaceMediaQueryWithWidthEvaluation rule.cssText w) idx hidx
        have hinv : ScanInv w s0
            (replaceRule s (replaceMediaQueryWithWidthEvaluation rule.cssText w) idx)
            (some (setSparse (o.getD []) idx rule.cssText)) (idx + 1) := by
          have hrw : ∀ j, sparseGetO (some (setSparse (o.getD []) idx rule.cssText)) j
              = if j = idx then some rule.cssText else sparseGetO o j := by
            intro j
            show sparseGetL (setSparse (o.getD []) idx rule.cssText) j = _
            rw [sparseGetL_setSparse, sparseGetO_getD]
          constructor
          · rw [hset]; exact h.href_eq
          · rw [hset]
            show (s.cssRules.set idx _).length = s0.cssRules.length
            rw [List.length_set]; exact h.len_eq
          · intro j hj
            rw [hset]
            show (s.cssRules.set idx _).get? j = s0.cssRules.get? j
            rw [lk_get?_set_ne _ _ _ _ (by omega)]
            exact h.high_eq j (by omega)
          · intro j t ht
            rw [hrw j] at ht
            by_cases hj : j = idx
            · rw [if_pos hj] at ht
              have htt := Option.some.inj ht
              subst htt
              subst hj
              refine ⟨Nat.lt_succ_self j, ⟨rule, hs0idx, rfl⟩, ?_⟩
              rw [hset]
              exact lk_get?_set_self _ _ _ hidx
            · rw [if_neg hj] at ht
              obtain ⟨hlt, hex, hcur⟩ := h.saved j t ht
              refine ⟨by omega, hex, ?_⟩
              rw [hset]
              exact (lk_get?_set_ne s.cssRules idx j _ (fun hh => hj hh.symm)).trans hcur
          · intro j ht
            rw [hrw j] at ht
            by_cases hj : j = idx
            · rw [if_pos hj] at ht; exact absurd ht (by simp)
            · rw [if_neg hj] at ht
              have hu := h.unsaved j ht
              rw [hset]
              exact (lk_get?_set_ne s.cssRules idx j _ (fun hh => hj hh.symm)).trans hu
        have heq : idx + 1 + f = idx + (f + 1) := by omega
        exact heq ▸ ih (idx + 1) _ _ _ hinv

theorem activateSheet_inv (w : Nat) (s : StyleSheet) :
    ScanInv w s (activateSheet w s).1 (activateSheet w s).2 s.cssRules.length := by
  have h := activateScanAux_inv w s s.cssRules.length 0 false s none (scanInv_init w s)
  simpa using h

/-! Frame lemmas for the activation scan -/

theorem activateScanAux_lower (w : Nat) :
    ∀ (fuel idx : Nat) (rs : Bool) (s : StyleSheet) (o : Option (List (Option String))) (j : Nat),
      j < idx →
      (activateScanAux w fuel idx rs s o).1.cssRules.get? j = s.cssRules.get? j := by
  intro fuel
  induction fuel with
  | zero => intro idx rs s o j _; rfl
  | succ f ih =>
    intro idx rs s o j hj
    simp only [activateScanAux]
    cases hr : s.cssRules.get? idx with
    | none => rfl
    | some rule =>
      dsimp only
      split
      · exact ih (idx + 1) _ s o j (by omega)
      · have hidx := lk_get?_some_lt _ _ _ hr
        rw [ih (idx + 1) _ _ _ j (by omega), replaceRule_eq_set _ _ _ hidx]
        exact lk_get?_set_ne _ _ _ _ (by omega)

theorem activateScanAux_false_skip (w : Nat) :
    ∀ (fuel idx : Nat) (s : StyleSheet) (o : Option (List (Option String))) (j : Nat),
      idx ≤ j →
      (∀ k r, idx ≤ k → k ≤ j → s.cssRules.get? k = some r →
        strIncludes r.cssText startMarker = false) →
      (activateScanAux w fuel idx false s o).1.cssRules.get? j = s.cssRules.get? j := by
  intro fuel
  induction fuel with
  | zero => intro idx s o j _ _; rfl
  | succ f ih =>
    intro idx s o j hij hns
    simp only [activateScanAux]
    cases hr : s.cssRules.get? idx with
    | none => rfl
    | some rule =>
      dsimp only
      have hstart : strIncludes rule.cssText startMarker = false :=
        hns idx rule (Nat.le_refl _) hij hr
      rw [hstart]
      simp only [Bool.or_self, Bool.false_and]
      split
      · by_cases hij' : idx = j
        · subst hij'
          exact activateScanAux_lower w f (idx + 1) _ s o idx (by omega)
        · exact ih (idx + 1) s o j (by omega)
            (fun k r hk1 hk2 hkr => hns k r (by omega) hk2 hkr)
      · rename_i hcond
        simp at hcond

theorem activateScanAux_end_skip (w : Nat) :
    ∀ (fuel idx : Nat) (rs : Bool) (s : StyleSheet) (o : Option (List (Option String)))
      (e j : Nat) (re : Rule),
      idx ≤ e → e ≤ j →
      s.cssRules.get? e = some re →
      strIncludes re.cssText endMarker = true →
      (∀ k r, e < k → k ≤ j → s.cssRules.get? k = some r →
        strIncludes r.cssText startMarker = false) →
      (activateScanAux w fuel idx rs s o).1.cssRules.get? j = s.cssRules.get? j := by
  intro fuel
  induction fuel with
  | zero => intro idx rs s o e j re _ _ _ _ _; rfl
  | succ f ih =>
    intro idx rs s o e j re hie hej hre hend hns
    simp only [activateScanAux]
    cases hr : s.cssRules.get? idx with
    | none => rfl
    | some rule =>
      dsimp only
      by_cases hip : idx = e
      · subst hip
        have hrule : rule = re := by rw [hre] at hr; exact (Option.some.inj hr).symm
        subst hrule
        rw [hend]
        simp only [Bool.not_true, Bool.and_false]
        split
        · by_cases hij' : idx = j
          · subst hij'
            exact activateScanAux_lower w f (idx + 1) _ s o idx (by omega)
          · exact activateScanAux_false_skip w f (idx + 1) s o j (by omega)
              (fun k r hk1 hk2 hkr => hns k r (by omega) hk2 hkr)
        · rename_i hcond
          simp at hcond
      · have hlt : idx < e := by omega
        split
        · exact ih (idx + 1) _ s o e j re (by omega) hej hre hend hns
        · have hidx := lk_get?_some_lt _ _ _ hr
          have hset := replaceRule_eq_set s (replaceMediaQueryWithWidthEvaluation rule.cssText w) idx hidx
          have hre' : (replaceRule s (replaceMediaQueryWithWidthEvaluation rule.cssText w) idx).cssRules.get? e
              = some re := by
            rw [hset]
            rw [lk_get?_set_ne _ _ _ _ (by omega)]
            exact hre
          have hns' : ∀ k r, e < k → k ≤ j →
              (replaceRule s (replaceMediaQueryWithWidthEvaluation rule.cssText w) idx).cssRules.get? k
                = some r → strIncludes r.cssText startMarker = false := by
            intro k r hk1 hk2 hkr
            rw [hset, lk_get?_set_ne _ _ _ _ (by omega)] at hkr
            exact hns k r hk1 hk2 hkr
          rw [ih (idx + 1) _ _ _ e j re (by omega) hej hre' hend hns']
          rw [hset]
          exact lk_get?_set_ne _ _ _ _ (by omega)

theorem activateScanAux_open (w : Nat) :
    ∀ (fuel idx : Nat) (s : StyleSheet) (o : Option (List (Option String))) (j : Nat) (rj : Rule),
      idx ≤ j → j < idx + fuel →
      s.cssRules.get? j = some rj →
      isReplaceableMediaRule rj = true →
      (∀ k r, idx ≤ k → k ≤ j → s.cssRules.get? k = some r →
        strIncludes r.cssText endMarker = false) →
      (activateScanAux w fuel idx true s o).1.cssRules.get? j
        = some (parseRule (replaceMediaQueryWithWidthEvaluation rj.cssText w)) := by
  intro fuel
  induction fuel with
  | zero => intro idx s o j rj h1 h2 _ _ _; omega
  | succ f ih =>
    intro idx s o j rj hij hfuel hj hrep hnoend
    have hjlen := lk_get?_some_lt _ _ _ hj
    obtain ⟨rule, hr⟩ := lk_get?_of_lt s.cssRules idx (by omega)
    simp only [activateScanAux, hr]
    have hend_idx : strIncludes rule.cssText endMarker = false :=
      hnoend idx rule (Nat.le_refl _) hij hr
    rw [hend_idx]
    simp only [Bool.true_or, Bool.not_false, Bool.and_true]
    by_cases hij' : idx = j
    · subst hij'
      rw [hr] at hj
      have hrule : rule = rj := Option.some.inj hj
      subst hrule
      split
      · rename_i hcond; rw [hrep] at hcond; simp at hcond
      · rw [activateScanAux_lower w f (idx + 1) _ _ _ idx (by omega),
          replaceRule_eq_set _ _ _ (by omega)]
        exact lk_get?_set_self _ _ _ (by omega)
    · split
      · exact ih (idx + 1) s o j rj (by omega) (by omega) hj hrep
          (fun k r h1 h2 h3 => hnoend k r (by omega) h2 h3)
      · have hidx := lk_get?_some_lt _ _ _ hr
        have hset := replaceRule_eq_set s (replaceMediaQueryWithWidthEvaluation rule.cssText w) idx hidx
        refine ih (idx + 1) _ _ j rj (by omega) (by omega) ?_ hrep ?_
        · rw [hset, lk_get?_set_ne _ _ _ _ (by omega)]; exact hj
        · intro k r h1 h2 h3
          rw [hset, lk_get?_set_ne _ _ _ _ (by omega)] at h3
          exact hnoend k r (by omega) h2 h3

theorem activateScanAux_reach (w : Nat) :
    ∀ (fuel idx : Nat) (rs : Bool) (s : StyleSheet) (o : Option (List (Option String)))
      (p j : Nat) (rp rj : Rule),
      idx ≤ p → p ≤ j → j < idx + fuel →
      s.cssRules.get? p = some rp →
      strIncludes rp.cssText startMarker = true →
      s.cssRules.get? j = some rj →
      isReplaceableMediaRule rj = true →
      (∀ k r, p ≤ k → k ≤ j → s.cssRules.get? k = some r →
        strIncludes r.cssText endMarker = false) →
      (activateScanAux w fuel idx rs s o).1.cssRules.get? j
        = some (parseRule (replaceMediaQueryWithWidthEvaluation rj.cssText w)) := by
  intro fuel
  induction fuel with
  | zero => intro idx rs s o p j rp rj h1 h2 h3 _ _ _ _ _; omega
  | succ f ih =>
    intro idx rs s o p j rp rj hip hpj hfuel hp hpstart hj hrep hnoend
    have hjlen := lk_get?_some_lt _ _ _ hj
    obtain ⟨rule, hr⟩ := lk_get?_of_lt s.cssRules idx (by omega)
    simp only [activateScanAux, hr]
    by_cases hipeq : idx = p
    · subst hipeq
      rw [hr] at hp
      have hrule : rule = rp := Option.some.inj hp
      subst hrule
      rw [hpstart]
      have hend_idx : strIncludes rule.cssText endMarker = false :=
        hnoend idx rule (Nat.le_refl _) (by omega) hr
      rw [hend_idx]
      simp only [Bool.or_true, Bool.not_false, Bool.and_true]
      by_cases hpj' : idx = j
      · subst hpj'
        rw [hr] at hj
        have hrule2 : rule = rj := Option.some.inj hj
        subst hrule2
        split
        · rename_i hcond; rw [hrep] at hcond; simp at hcond
        · rw [activateScanAux_lower w f (idx + 1) _ _ _ idx (by omega),
            replaceRule_eq_set _ _ _ (by omega)]
          exact lk_get?_set_self _ _ _ (by omega)
      · split
        · exact activateScanAux_open w f (idx + 1) s o j rj (by omega) (by omega) hj hrep
            (fun k r h1 h2 h3 => hnoend k r (by omega) h2 h3)
        · have hidx := lk_get?_some_lt _ _ _ hr
          have hset := replaceRule_eq_set s (replaceMediaQueryWithWidthEvaluation rule.cssText w) idx hidx
          refine activateScanAux_open w f (idx + 1) _ _ j rj (by omega) (by omega) ?_ hrep ?_
          · rw [hset, lk_get?_set_ne _ _ _ _ (by omega)]; exact hj
          · intro k r h1 h2 h3
            rw [hset, lk_get?_set_ne _ _ _ _ (by omega)] at h3
            exact hnoend k r (by omega) h2 h3
    · split
      · exact ih (idx + 1) _ s o p j rp rj (by omega) hpj (by omega) hp hpstart hj hrep hnoend
      · have hidx := lk_get?_some_lt _ _ _ hr
        have hset := replaceRule_eq_set s (replaceMediaQueryWithWidthEvaluation rule.cssText w) idx hidx
        refine ih (idx + 1) _ _ _ p j rp rj (by omega) hpj (by omega) ?_ hpstart ?_ hrep ?_
        · rw [hset, lk_get?_set_ne _ _ _ _ (by omega)]; exact hp
        · rw [hset, lk_get?_set_ne _ _ _ _ (by omega)]; exact hj
        · intro k r h1 h2 h3
          rw [hset, lk_get?_set_ne _ _ _ _ (by omega)] at h3
          exact hnoend k r h1 h2 h3

/-! Lemmas about the restoration loop -/

theorem restoreSheetGo_href :
    ∀ (coll : List (Option String)) (i : Nat) (s : StyleSheet),
      (restoreSheetGo coll i s).href = s.href := by
  intro coll
  induction coll with
  | nil => intro i s; rfl
  | cons e rest ih =>
    intro i s
    cases e with
    | none => exact ih (i + 1) s
    | some t =>
      simp only [restoreSheetGo]
      rw [ih]
      by_cases ht : t = ""
      · rw [if_pos ht]
      · rw [if_neg ht]; rfl

theorem restoreSheetGo_length :
    ∀ (coll : List (Option String)) (i : Nat) (s : StyleSheet),
      (∀ k u, coll.get? k = some (some u) → i + k < s.cssRules.length) →
      (restoreSheetGo coll i s).cssRules.length = s.cssRules.length := by
  intro coll
  induction coll with
  | nil => intro i s _; rfl
  | cons e rest ih =>
    intro i s hk
    cases e with
    | none =>
      exact ih (i + 1) s (fun k u h => by have := hk (k + 1) u h; omega)
    | some t =>
      simp only [restoreSheetGo]
      by_cases ht : t = ""
      · rw [if_pos ht]
        exact ih (i + 1) s (fun k u h => by have := hk (k + 1) u h; omega)
      · rw [if_neg ht]
        have hir : i < s.cssRules.length := by have := hk 0 t rfl; omega
        have hlen := replaceRule_length s t i hir
        rw [ih (i + 1) (replaceRule s t i)
          (fun k u h => by rw [hlen]; have := hk (k + 1) u h; omega)]
        exact hlen

theorem restoreSheetGo_get_lower :
    ∀ (coll : List (Option String)) (i : Nat) (s : StyleSheet) (j : Nat),
      (∀ k u, coll.get? k = some (some u) → i + k < s.cssRules.length) →
      j < i →
      (restoreSheetGo coll i s).cssRules.get? j = s.cssRules.get? j := by
  intro coll
  induction coll with
  | nil => intro i s j _ _; rfl
  | cons e rest ih =>
    intro i s j hk hj
    cases e with
    | none => exact ih (i + 1) s j (fun k u h => by have := hk (k + 1) u h; omega) (by omega)
    | some t =>
      simp only [restoreSheetGo]
      by_cases ht : t = ""
      · rw [if_pos ht]
        exact ih (i + 1) s j (fun k u h => by have := hk (k + 1) u h; omega) (by omega)
      · rw [if_neg ht]
        have hir : i < s.cssRules.length := by have := hk 0 t rfl; omega
        have hset := replaceRule_eq_set s t i hir
        have hrange : ∀ k u, rest.get? k = some (some u) →
            (i + 1) + k < (replaceRule s t i).cssRules.length := by
          intro k u h
          rw [replaceRule_length s t i hir]
          have := hk (k + 1) u h; omega
        rw [ih (i + 1) (replaceRule s t i) j hrange (by omega), hset]
        exact lk_get?_set_ne _ _ _ _ (by omega)

theorem restoreSheetGo_get_entry :
    ∀ (coll : List (Option String)) (i : Nat) (s : StyleSheet) (j : Nat) (t : String),
      (∀ k u, coll.get? k = some (some u) → i + k < s.cssRules.length) →
      i ≤ j →
      coll.get? (j - i) = some (some t) →
      t ≠ "" →
      (restoreSheetGo coll i s).cssRules.get? j = some (parseRule t) := by
  intro coll
  induction coll with
  | nil => intro i s j t _ _ hget _; simp at hget
  | cons e rest ih =>
    intro i s j t hk hij hget ht
    by_cases hji : j = i
    · subst hji
      rw [Nat.sub_self] at hget
      have he : e = some t := Option.some.inj hget
      subst he
      simp only [restoreSheetGo]
      rw [if_neg ht]
      have hir : j < s.cssRules.length := by have := hk 0 t rfl; omega
      have hrange : ∀ k u, rest.get? k = some (some u) →
          (j + 1) + k < (replaceRule s t j).cssRules.length := by
        intro k u h
        rw [replaceRule_length s t j hir]
        have := hk (k + 1) u h; omega
      rw [restoreSheetGo_get_lower rest (j + 1) (replaceRule s t j) j hrange (by omega),
        replaceRule_eq_set s t j hir]
      exact lk_get?_set_self _ _ _ hir
    · have hsub : j - i = (j - (i + 1)) + 1 := by omega
      rw [hsub] at hget
      cases e with
      | none =>
        exact ih (i + 1) s j t (fun k u h => by have := hk (k + 1) u h; omega)
          (by omega) hget ht
      | some u =>
        simp only [restoreSheetGo]
        by_cases hu : u = ""
        · rw [if_pos hu]
          exact ih (i + 1) s j t (fun k x h => by have := hk (k + 1) x h; omega)
            (by omega) hget ht
        · rw [if_neg hu]
          have hiru : i < s.cssRules.length := by have := hk 0 u rfl; omega
          refine ih (i + 1) (replaceRule s u i) j t ?_ (by omega) hget ht
          intro k x h
          rw [replaceRule_length s u i hiru]
          have := hk (k + 1) x h; omega

theorem restoreSheetGo_get_skip :
    ∀ (coll : List (Option String)) (i : Nat) (s : StyleSheet) (j : Nat),
      (∀ k u, coll.get? k = some (some u) → i + k < s.cssRules.length) →
      (∀ u, coll.get? (j - i) = some (some u) → u = "") →
      (restoreSheetGo coll i s).cssRules.get? j = s.cssRules.get? j := by
  intro coll
  induction coll with
  | nil => intro i s j _ _; rfl
  | cons e rest ih =>
    intro i s j hk hskip
    by_cases hij : j < i
    · exact restoreSheetGo_get_lower (e :: rest) i s j hk hij
    · by_cases hji : j = i
      · subst hji
        cases e with
        | none =>
          exact restoreSheetGo_get_lower rest (j + 1) s j
            (fun k u h => by have := hk (k + 1) u h; omega) (by omega)
        | some u =>
          have hu : u = "" := hskip u (by rw [Nat.sub_self]; rfl)
          simp only [restoreSheetGo]
          rw [if_pos hu]
          exact restoreSheetGo_get_lower rest (j + 1) s j
            (fun k x h => by have := hk (k + 1) x h; omega) (by omega)
      · have hsub : j - i = (j - (i + 1)) + 1 := by omega
        cases e with
        | none =>
          refine ih (i + 1) s j (fun k u h => by have := hk (k + 1) u h; omega) ?_
          intro u hu
          exact hskip u (by rw [hsub]; exact hu)
        | some u =>
          simp only [restoreSheetGo]
          by_cases hu : u = ""
          · rw [if_pos hu]
            refine ih (i + 1) s j (fun k x h => by have := hk (k + 1) x h; omega) ?_
            intro x hx
            exact hskip x (by rw [hsub]; exact hx)
          · rw [if_neg hu]
            have hiru : i < s.cssRules.length := by have := hk 0 u rfl; omega
            have hres : (restoreSheetGo rest (i + 1) (replaceRule s u i)).cssRules.get? j
                = (replaceRule s u i).cssRules.get? j := by
              refine ih (i + 1) (replaceRule s u i) j ?_ ?_
              · intro k x h
                rw [replaceRule_length s u i hiru]
                have := hk (k + 1) x h; omega
              · intro x hx
                exact hskip x (by rw [hsub]; exact hx)
            rw [hres, replaceRule_eq_set s u i hiru]
            exact lk_get?_set_ne _ _ _ _ (by omega)

/-! Document-level lemmas -/

theorem styleSheet_ext (s₁ s₂ : StyleSheet) (h1 : s₁.href = s₂.href)
    (h2 : ∀ n, s₁.cssRules.get? n = s₂.cssRules.get? n) : s₁ = s₂ := by
  cases s₁ with
  | mk href₁ rules₁ =>
    cases s₂ with
    | mk href₂ rules₂ =>
      have h1' : href₁ = href₂ := h1
      subst h1'
      have h2' : rules₁ = rules₂ := List.ext_get? h2
      subst h2'
      rfl

theorem matchedIndices_nodup (hostname : String) (doc : List StyleSheet) :
    (matchedIndices hostname doc).Nodup :=
  List.Nodup.filter _ (List.nodup_range _)

theorem mem_matchedIndices (hostname : String) (doc : List StyleSheet) (i : Nat) :
    i ∈ matchedIndices hostname doc ↔
      i < doc.length ∧ (match doc.get? i with
        | some s => sheetMatchesHostname hostname s
        | none => false) = true := by
  unfold matchedIndices
  rw [List.mem_filter, List.mem_range]

theorem sheetMatchesHostname_href (hostname : String) (s₁ s₂ : StyleSheet)
    (h : s₁.href = s₂.href) :
    sheetMatchesHostname hostname s₁ = sheetMatchesHostname hostname s₂ := by
  unfold sheetMatchesHostname
  rw [h]

theorem matchedIndices_congr (hostname : String) (doc₁ doc₂ : List StyleSheet)
    (hlen : doc₁.length = doc₂.length)
    (hh : ∀ i, (doc₁.get? i).map StyleSheet.href = (doc₂.get? i).map StyleSheet.href) :
    matchedIndices hostname doc₁ = matchedIndices hostname doc₂ := by
  unfold matchedIndices
  rw [hlen]
  apply List.filter_congr
  intro i _
  have hi := hh i
  cases h1 : doc₁.get? i with
  | none =>
    rw [h1] at hi
    cases h2 : doc₂.get? i with
    | none => rfl
    | some s => rw [h2] at hi; simp at hi
  | some s =>
    rw [h1] at hi
    cases h2 : doc₂.get? i with
    | none => rw [h2] at hi; simp at hi
    | some s' =>
      rw [h2] at hi
      simp only [Option.map_some'] at hi
      exact sheetMatchesHostname_href hostname s s' (Option.some.inj hi)

theorem activateDocGo_get?_of_notMem (w : Nat) :
    ∀ (idxs : List Nat) (doc : List StyleSheet) (acc : List (Option (List (Option String))))
      (i : Nat), i ∉ idxs →
      (activateDocGo w idxs doc acc).1.get? i = doc.get? i := by
  intro idxs
  induction idxs with
  | nil => intro doc acc i _; rfl
  | cons i₀ rest ih =>
    intro doc acc i hi
    have hne : i₀ ≠ i := fun h => hi (h ▸ List.mem_cons_self _ _)
    have hi' : i ∉ rest := fun h => hi (List.mem_cons_of_mem _ h)
    simp only [activateDocGo]
    cases hd : doc.get? i₀ with
    | none => exact ih doc _ i hi'
    | some s =>
      rw [ih _ _ i hi']
      exact lk_get?_set_ne _ _ _ _ hne

theorem activateDocGo_length (w : Nat) :
    ∀ (idxs : List Nat) (doc : List StyleSheet) (acc : List (Option (List (Option String)))),
      (activateDocGo w idxs doc acc).1.length = doc.length := by
  intro idxs
  induction idxs with
  | nil => intro doc acc; rfl
  | cons i₀ rest ih =>
    intro doc acc
    simp only [activateDocGo]
    cases hd : doc.get? i₀ with
    | none => exact ih doc _
    | some s =>
      rw [ih _ _]
      exact List.length_set _ _ _

theorem activateDocGo_href (w : Nat) :
    ∀ (idxs : List Nat) (doc : List StyleSheet) (acc : List (Option (List (Option String))))
      (i : Nat),
      ((activateDocGo w idxs doc acc).1.get? i).map StyleSheet.href
        = (doc.get? i).map StyleSheet.href := by
  intro idxs
  induction idxs with
  | nil => intro doc acc i; rfl
  | cons i₀ rest ih =>
    intro doc acc i
    simp only [activateDocGo]
    cases hd : doc.get? i₀ with
    | none => exact ih doc _ i
    | some s =>
      rw [ih _ _ i]
      by_cases hii : i = i₀
      · subst hii
        have hlt : i < doc.length := lk_get?_some_lt _ _ _ hd
        rw [lk_get?_set_self _ _ _ hlt, hd]
        simp only [Option.map_some']
        rw [(activateSheet_inv w s).href_eq]
      · rw [lk_get?_set_ne _ _ _ _ (fun h => hii h.symm)]

theorem activateDocGo_spec (w : Nat) :
    ∀ (idxs : List Nat) (doc : List StyleSheet) (acc : List (Option (List (Option String)))),
      idxs.Nodup →
      (activateDocGo w idxs doc acc).2
        = acc ++ idxs.map (fun i => match doc.get? i with
            | some s => (activateSheet w s).2
            | none => none) ∧
      ∀ i, i ∈ idxs →
        (activateDocGo w idxs doc acc).1.get? i
          = match doc.get? i with
            | some s => some (activateSheet w s).1
            | none => none := by
  intro idxs
  induction idxs with
  | nil => intro doc acc _; exact ⟨by simp [activateDocGo], fun i hi => absurd hi (List.not_mem_nil i)⟩
  | cons i₀ rest ih =>
    intro doc acc hnd
    have hnd' : rest.Nodup := (List.nodup_cons.mp hnd).2
    have hni : i₀ ∉ rest := (List.nodup_cons.mp hnd).1
    simp only [activateDocGo]
    cases hd : doc.get? i₀ with
    | none =>
      obtain ⟨hacc, hget⟩ := ih doc (acc ++ [none]) hnd'
      constructor
      · rw [hacc]
        simp only [List.map_cons]
        rw [hd]
        simp
      · intro i hi
        rcases List.mem_cons.mp hi with rfl | hi'
        · rw [activateDocGo_get?_of_notMem w rest doc _ i hni, hd]
        · rw [hget i hi']
    | some s =>
      obtain ⟨hacc, hget⟩ :=
        ih (doc.set i₀ (activateSheet w s).1) (acc ++ [(activateSheet w s).2]) hnd'
      have hdoc' : ∀ k, k ≠ i₀ →
          (doc.set i₀ (activateSheet w s).1).get? k = doc.get? k :=
        fun k hk => lk_get?_set_ne _ _ _ _ (fun h => hk h.symm)
      constructor
      · rw [hacc]
        have hmap : rest.map (fun i =>
              match (doc.set i₀ (activateSheet w s).1).get? i with
              | some s => (activateSheet w s).2
              | none => none)
            = rest.map (fun i => match doc.get? i with
              | some s => (activateSheet w s).2
              | none => none) := by
          apply List.map_congr_left
          intro k hk
          rw [hdoc' k (fun h => hni (h ▸ hk))]
        rw [hmap]
        simp only [List.map_cons]
        rw [hd]
        simp
      · intro i hi
        rcases List.mem_cons.mp hi with rfl | hi'
        · rw [activateDocGo_get?_of_notMem w rest _ _ i hni, hd]
          have hlt : i < doc.length := lk_get?_some_lt _ _ _ hd
          exact lk_get?_set_self _ _ _ hlt
        · rw [hget i hi', hdoc' i (fun h => hni (h ▸ hi'))]

theorem deactivateDocGo_get?_of_notMem :
    ∀ (origs : List (Option (List (Option String)))) (idxs : List Nat)
      (doc : List StyleSheet) (i : Nat),
      i ∉ idxs →
      (deactivateDocGo origs idxs doc).get? i = doc.get? i := by
  intro origs
  induction origs with
  | nil => intro idxs doc i _; rfl
  | cons e rest ih =>
    intro idxs doc i hi
    cases idxs with
    | nil => cases e <;> rfl
    | cons i₀ irest =>
      have hne : i₀ ≠ i := fun h => hi (h ▸ List.mem_cons_self _ _)
      have hi' : i ∉ irest := fun h => hi (List.mem_cons_of_mem _ h)
      cases e with
      | none => exact ih irest doc i hi'
      | some coll =>
        simp only [deactivateDocGo]
        rw [ih irest _ i hi']
        unfold updateSheetAt
        cases hd : doc.get? i₀ with
        | none => rfl
        | some s => exact lk_get?_set_ne _ _ _ _ hne

theorem deactivateDocGo_get?_entry :
    ∀ (origs : List (Option (List (Option String)))) (idxs : List Nat)
      (doc : List StyleSheet) (fi i : Nat) (coll : List (Option String)),
      idxs.Nodup →
      origs.get? fi = some (some coll) →
      idxs.get? fi = some i →
      (deactivateDocGo origs idxs doc).get? i = (doc.get? i).map (restoreSheet coll) := by
  intro origs
  induction origs with
  | nil => intro idxs doc fi i coll _ h _; simp at h
  | cons e rest ih =>
    intro idxs doc fi i coll hnd ho hix
    cases idxs with
    | nil => simp at hix
    | cons i₀ irest =>
      have hnd' : irest.Nodup := (List.nodup_cons.mp hnd).2
      have hni : i₀ ∉ irest := (List.nodup_cons.mp hnd).1
      cases fi with
      | zero =>
        have he : e = some coll := Option.some.inj ho
        have hi0 : i₀ = i := Option.some.inj hix
        subst he
        subst hi0
        simp only [deactivateDocGo]
        rw [deactivateDocGo_get?_of_notMem rest irest _ i₀ hni]
        unfold updateSheetAt
        cases hd : doc.get? i₀ with
        | none => exact hd
        | some s =>
          have hlt := lk_get?_some_lt _ _ _ hd
          rw [lk_get?_set_self _ _ _ hlt]
          rfl
      | succ fi' =>
        have hi_mem : i ∈ irest := List.get?_mem hix
        have hne : i₀ ≠ i := fun h => hni (h ▸ hi_mem)
        cases e with
        | none => exact ih irest doc fi' i coll hnd' ho hix
        | some coll₀ =>
          simp only [deactivateDocGo]
          rw [ih irest (updateSheetAt doc i₀ (restoreSheet coll₀)) fi' i coll hnd' ho hix]
          unfold updateSheetAt
          cases hd : doc.get? i₀ with
          | none => rfl
          | some s => rw [lk_get?_set_ne _ _ _ _ hne]

theorem deactivateDocGo_get?_hole :
    ∀ (origs : List (Option (List (Option String)))) (idxs : List Nat)
      (doc : List StyleSheet) (fi i : Nat),
      idxs.Nodup →
      idxs.get? fi = some i →
      (origs.get? fi = none ∨ origs.get? fi = some none) →
      (deactivateDocGo origs idxs doc).get? i = doc.get? i := by
  intro origs
  induction origs with
  | nil => intro idxs doc fi i _ _ _; rfl
  | cons e rest ih =>
    intro idxs doc fi i hnd hix ho
    cases idxs with
    | nil => simp at hix
    | cons i₀ irest =>
      have hnd' : irest.Nodup := (List.nodup_cons.mp hnd).2
      have hni : i₀ ∉ irest := (List.nodup_cons.mp hnd).1
      cases fi with
      | zero =>
        have hi0 : i₀ = i := Option.some.inj hix
        subst hi0
        have he : e = none := by
          rcases ho with h | h
          · simp at h
          · exact Option.some.inj h
        subst he
        exact deactivateDocGo_get?_of_notMem rest irest doc i₀ hni
      | succ fi' =>
        have hi_mem : i ∈ irest := List.get?_mem hix
        have hne : i₀ ≠ i := fun h => hni (h ▸ hi_mem)
        cases e with
        | none => exact ih irest doc fi' i hnd' hix ho
        | some coll₀ =>
          simp only [deactivateDocGo]
          rw [ih irest (updateSheetAt doc i₀ (restoreSheet coll₀)) fi' i hnd' hix ho]
          unfold updateSheetAt
          cases hd : doc.get? i₀ with
          | none => rfl
          | some s => rw [lk_get?_set_ne _ _ _ _ hne]

theorem activateSheet_none (w : Nat) (s : StyleSheet)
    (h : (activateSheet w s).2 = none) : (activateSheet w s).1 = s := by
  have hinv := activateSheet_inv w s
  apply styleSheet_ext
  · exact hinv.href_eq
  · intro n
    apply hinv.unsaved
    rw [h]
    rfl

/-! Sheet-level restoration and the round trip -/

theorem parseRule_cssText (t : String) : (parseRule t).cssText = t := by
  unfold parseRule
  dsimp only
  split <;> rfl

theorem rewrite_empty (w : Nat) : replaceMediaQueryWithWidthEvaluation ("") w = "" := rfl

theorem restoreSheet_href (coll : List (Option String)) (s : StyleSheet) :
    (restoreSheet coll s).href = s.href :=
  restoreSheetGo_href coll 0 s

theorem restoreSheet_length (coll : List (Option String)) (s : StyleSheet)
    (hk : ∀ k u, coll.get? k = some (some u) → k < s.cssRules.length) :
    (restoreSheet coll s).cssRules.length = s.cssRules.length :=
  restoreSheetGo_length coll 0 s (fun k u h => by have := hk k u h; omega)

theorem restoreSheet_get_entry (coll : List (Option String)) (s : StyleSheet)
    (j : Nat) (t : String)
    (hk : ∀ k u, coll.get? k = some (some u) → k < s.cssRules.length)
    (hget : coll.get? j = some (some t)) (ht : t ≠ "") :
    (restoreSheet coll s).cssRules.get? j = some (parseRule t) :=
  restoreSheetGo_get_entry coll 0 s j t (fun k u h => by have := hk k u h; omega)
    (Nat.zero_le j) (by rw [Nat.sub_zero]; exact hget) ht

theorem restoreSheet_get_skip (coll : List (Option String)) (s : StyleSheet) (j : Nat)
    (hk : ∀ k u, coll.get? k = some (some u) → k < s.cssRules.length)
    (hskip : ∀ u, coll.get? j = some (some u) → u = "") :
    (restoreSheet coll s).cssRules.get? j = s.cssRules.get? j :=
  restoreSheetGo_get_skip coll 0 s j (fun k u h => by have := hk k u h; omega)
    (fun u hu => hskip u (by rw [Nat.sub_zero] at hu; exact hu))

theorem restoreSheet_idem (coll : List (Option String)) (s : StyleSheet)
    (hk : ∀ k u, coll.get? k = some (some u) → k < s.cssRules.length) :
    restoreSheet coll (restoreSheet coll s) = restoreSheet coll s := by
  have hk' : ∀ k u, coll.get? k = some (some u) → k < (restoreSheet coll s).cssRules.length := by
    intro k u h
    rw [restoreSheet_length coll s hk]
    exact hk k u h
  apply styleSheet_ext
  · exact restoreSheet_href coll _
  · intro n
    cases hc : coll.get? n with
    | none =>
      exact restoreSheet_get_skip coll _ n hk' (fun u hu => by rw [hc] at hu; cases hu)
    | some e =>
      cases e with
      | none =>
        refine restoreSheet_get_skip coll _ n hk' (fun u hu => ?_)
        rw [hc] at hu
        exact absurd hu (by simp)
      | some t =>
        by_cases ht : t = ""
        · refine restoreSheet_get_skip coll _ n hk' (fun u hu => ?_)
          rw [hc] at hu
          have := Option.some.inj (Option.some.inj hu)
          rw [← this]
          exact ht
        · rw [restoreSheet_get_entry coll _ n t hk' hc ht,
            restoreSheet_get_entry coll s n t hk hc ht]

theorem sheetTexts_ext (s₁ s₂ : StyleSheet)
    (h : ∀ j, (s₁.cssRules.get? j).map Rule.cssText = (s₂.cssRules.get? j).map Rule.cssText) :
    sheetTexts s₁ = sheetTexts s₂ := by
  apply List.ext_get?
  intro n
  unfold sheetTexts
  rw [List.get?_map, List.get?_map]
  exact h n

theorem activateSheet_coll_range (w : Nat) (s : StyleSheet) (coll : List (Option String))
    (h : (activateSheet w s).2 = some coll) :
    ∀ k u, coll.get? k = some (some u) → k < (activateSheet w s).1.cssRules.length := by
  intro k u hc
  have hO : sparseGetO (activateSheet w s).2 k = some u := by
    rw [h]
    show sparseGetL coll k = some u
    unfold sparseGetL
    rw [hc]
    rfl
  have hsv := (activateSheet_inv w s).saved k u hO
  rw [(activateSheet_inv w s).len_eq]
  omega

theorem activateSheet_roundtrip_texts (w : Nat) (s : StyleSheet) (coll : List (Option String))
    (h : (activateSheet w s).2 = some coll) :
    ∀ j, ((restoreSheet coll (activateSheet w s).1).cssRules.get? j).map Rule.cssText
      = (s.cssRules.get? j).map Rule.cssText := by
  intro j
  have hinv := activateSheet_inv w s
  have hk := activateSheet_coll_range w s coll h
  cases hc : coll.get? j with
  | none =>
    have hnone : sparseGetO (activateSheet w s).2 j = none := by
      rw [h]
      show sparseGetL coll j = none
      unfold sparseGetL
      rw [hc]
      rfl
    rw [restoreSheet_get_skip coll _ j hk (fun u hu => by rw [hc] at hu; cases hu),
      hinv.unsaved j hnone]
  | some e =>
    cases e with
    | none =>
      have hnone : sparseGetO (activateSheet w s).2 j = none := by
        rw [h]
        show sparseGetL coll j = none
        unfold sparseGetL
        rw [hc]
        rfl
      rw [restoreSheet_get_skip coll _ j hk
          (fun u hu => by rw [hc] at hu; exact absurd hu (by simp)),
        hinv.unsaved j hnone]
    | some t =>
      have hsome : sparseGetO (activateSheet w s).2 j = some t := by
        rw [h]
        show sparseGetL coll j = some t
        unfold sparseGetL
        rw [hc]
        rfl
      obtain ⟨hjlt, ⟨r0, hr0, ht0⟩, hcur⟩ := hinv.saved j t hsome
      by_cases ht : t = ""
      · rw [restoreSheet_get_skip coll _ j hk (fun u hu => by
          rw [hc] at hu
          have := Option.some.inj (Option.some.inj hu)
          rw [← this]
          exact ht)]
        rw [hcur, hr0]
        simp only [Option.map_some']
        rw [parseRule_cssText]
        subst ht
        rw [rewrite_empty, ht0]
      · rw [restoreSheet_get_entry coll _ j t hk hc ht, hr0]
        simp only [Option.map_some']
        rw [parseRule_cssText, ht0]

/-! The claims -/

/-- Claim C1: for every target width `w`, a `(min-width:Vpx)` clause is
textually replaced by the always-true form `(min-width:0px)` exactly when
`w ≥ V` and by the always-false form `(min-width:999999px)` otherwise,
and dually a `(max-width:Vpx)` clause is replaced by the always-true form
exactly when `w ≤ V`; instantiating the first conjunct at `V = 500` gives
the stated particular case: the rewritten condition of a rule with sole
condition `min-width:500px` is the always-true form iff `w ≥ 500` and the
always-false form iff `w < 500`. -/
theorem claim1_width_clause_evaluation (w v : Nat) (ds : List Char)
    (h : parseNatDigits ds = some v) :
    replaceMediaQueryWithWidthEvaluation
        (String.mk ("(min-width:".toList ++ (ds ++ "px)".toList))) w
      = (if v ≤ w then ENABLED_MEDIA_QUERY else DISABLED_MEDIA_QUERY) ∧
    replaceMediaQueryWithWidthEvaluation
        (String.mk ("(max-width:".toList ++ (ds ++ "px)".toList))) w
      = (if w ≤ v then ENABLED_MEDIA_QUERY else DISABLED_MEDIA_QUERY) := by
  have hdig := parseNatDigits_digits ds v h
  have hnp : ∀ c ∈ ds ++ ['p', 'x'], c ≠ '(' ∧ c ≠ ')' := by
    intro c hc
    rcases List.mem_append.mp hc with hc | hc
    · exact digit_ne_paren c (hdig c hc)
    · simp only [List.mem_cons, List.mem_singleton] at hc
      rcases hc with rfl | hc
      · exact ⟨by decide, by decide⟩
      · rcases hc with rfl | hc
        · exact ⟨by decide, by decide⟩
        · simp at hc
  constructor
  · have hsplit : "(min-width:".toList ++ (ds ++ "px)".toList)
        = minHead ++ ((ds ++ ['p', 'x']) ++ ')' :: ([] : List Char)) := by
      show minHead ++ (ds ++ "px)".toList) = _
      simp
    rw [hsplit]
    have hm := matchWidthClauseAt_min (ds ++ ['p', 'x']) [] hnp
    unfold replaceMediaQueryWithWidthEvaluation
    have htl : (String.mk (minHead ++ ((ds ++ ['p', 'x']) ++ ')' :: ([] : List Char)))).toList
        = minHead ++ ((ds ++ ['p', 'x']) ++ ')' :: ([] : List Char)) := rfl
    rw [htl, rewriteChars_match w _ _ _ hm, rewriteChars_nil]
    unfold widthClauseReplacement
    rw [cssMediaQueryMatch_min ds v w h]
    by_cases hvw : v ≤ w
    · rw [if_pos (decide_eq_true hvw), if_pos hvw, List.append_nil]
      rfl
    · rw [if_neg (by simp [hvw]), if_neg hvw, List.append_nil]
      rfl
  · have hsplit : "(max-width:".toList ++ (ds ++ "px)".toList)
        = maxHead ++ ((ds ++ ['p', 'x']) ++ ')' :: ([] : List Char)) := by
      show maxHead ++ (ds ++ "px)".toList) = _
      simp
    rw [hsplit]
    have hm := matchWidthClauseAt_max (ds ++ ['p', 'x']) [] hnp
    unfold replaceMediaQueryWithWidthEvaluation
    have htl : (String.mk (maxHead ++ ((ds ++ ['p', 'x']) ++ ')' :: ([] : List Char)))).toList
        = maxHead ++ ((ds ++ ['p', 'x']) ++ ')' :: ([] : List Char)) := rfl
    rw [htl, rewriteChars_match w _ _ _ hm, rewriteChars_nil]
    unfold widthClauseReplacement
    rw [cssMediaQueryMatch_max ds v w h]
    by_cases hwv : w ≤ v
    · rw [if_pos (decide_eq_true hwv), if_pos hwv, List.append_nil]
      rfl
    · rw [if_neg (by simp [hwv]), if_neg hwv, List.append_nil]
      rfl

/-- Witness for C1 at `w = 320`, `V = 500`: the hypothesis and the
conclusion both hold at a concrete input. -/
theorem claim1_witness :
    parseNatDigits ['5', '0', '0'] = some 500 ∧
    (replaceMediaQueryWithWidthEvaluation
        (String.mk ("(min-width:".toList ++ (['5', '0', '0'] ++ "px)".toList))) 320
      = (if 500 ≤ 320 then ENABLED_MEDIA_QUERY else DISABLED_MEDIA_QUERY) ∧
    replaceMediaQueryWithWidthEvaluation
        (String.mk ("(max-width:".toList ++ (['5', '0', '0'] ++ "px)".toList))) 320
      = (if 320 ≤ 500 then ENABLED_MEDIA_QUERY else DISABLED_MEDIA_QUERY)) :=
  ⟨by decide, claim1_width_clause_evaluation 320 500 ['5', '0', '0'] (by decide)⟩

/-- Claim C5: when a rule text decomposes as `a ++ c ++ b` where no width
clause starts inside `a` and `c` is a width clause, the rewrite keeps
every character of `a` verbatim, substitutes `c` by its width evaluation,
and continues independently on `b`; when no width clause starts inside
`b` either, `b` is kept verbatim as well.  Non-width clauses (such as an
`orientation:` clause inside `a` or `b`) are therefore preserved
character for character. -/
theorem claim5_nonwidth_preserved (w : Nat) (a c b : List Char)
    (ha : noClauseStartWithin a (c ++ b) = true)
    (hc : matchWidthClauseAt (c ++ b) = some (c, b)) :
    replaceMediaQueryWithWidthEvaluation (String.mk (a ++ (c ++ b))) w
      = String.mk (a ++ (widthClauseReplacement w c ++ rewriteChars w b)) ∧
    (noClauseStartWithin b [] = true → rewriteChars w b = b) := by
  constructor
  · unfold replaceMediaQueryWithWidthEvaluation
    have htl : (String.mk (a ++ (c ++ b))).toList = a ++ (c ++ b) := rfl
    rw [htl, rewriteChars_skip w a (c ++ b) ha, rewriteChars_match w _ _ _ hc]
  · exact rewriteChars_of_noClause w b

/-- Witness for C5: a media rule mixing a width clause with an
orientation clause, evaluated at width 800. -/
theorem claim5_witness :
    noClauseStartWithin ("@media ".toList)
        ("(min-width:600px)".toList ++ " and (orientation:landscape) \x7b\x7d".toList) = true ∧
    matchWidthClauseAt
        ("(min-width:600px)".toList ++ " and (orientation:landscape) \x7b\x7d".toList)
      = some ("(min-width:600px)".toList, " and (orientation:landscape) \x7b\x7d".toList) ∧
    (replaceMediaQueryWithWidthEvaluation
        (String.mk ("@media ".toList ++ ("(min-width:600px)".toList
          ++ " and (orientation:landscape) \x7b\x7d".toList))) 800
      = String.mk ("@media ".toList ++ (widthClauseReplacement 800 ("(min-width:600px)".toList)
          ++ rewriteChars 800 (" and (orientation:landscape) \x7b\x7d".toList))) ∧
    (noClauseStartWithin (" and (orientation:landscape) \x7b\x7d".toList) [] = true →
      rewriteChars 800 (" and (orientation:landscape) \x7b\x7d".toList)
        = " and (orientation:landscape) \x7b\x7d".toList)) :=
  ⟨by decide, by decide, claim5_nonwidth_preserved 800 _ _ _ (by decide) (by decide)⟩

/-- Claim C3: a rule at an index `j` such that either no rule at an index
`≤ j` contains the start marker, or some rule at `e ≤ j` contains the end
marker and no rule in `(e, j]` contains the start marker, is never
rewritten by the activation scan, whatever the target width. -/
theorem claim3_region_scoping (w : Nat) (s : StyleSheet) (j : Nat)
    (h : noStartMarkerBelow s j = true ∨ ∃ e, endThenNoStart s e j = true) :
    (activateSheet w s).1.cssRules.get? j = s.cssRules.get? j := by
  rcases h with hns | ⟨e, he⟩
  · have hfacts : ∀ k r, k ≤ j → s.cssRules.get? k = some r →
        strIncludes r.cssText startMarker = false := by
      intro k r hk hr
      have hget : (s.cssRules.take (j + 1)).get? k = some r := by
        rw [List.get?_take (by omega : k < j + 1)]
        exact hr
      have := List.all_eq_true.mp hns r (List.get?_mem hget)
      simpa using this
    exact activateScanAux_false_skip w s.cssRules.length 0 s none j (Nat.zero_le j)
      (fun k r _ hk2 hr => hfacts k r hk2 hr)
  · unfold endThenNoStart at he
    simp only [Bool.and_eq_true, decide_eq_true_eq] at he
    obtain ⟨⟨hmatch, hej⟩, hall⟩ := he
    cases hge : s.cssRules.get? e with
    | none => rw [hge] at hmatch; simp at hmatch
    | some re =>
      rw [hge] at hmatch
      have hns : ∀ k r, e < k → k ≤ j → s.cssRules.get? k = some r →
          strIncludes r.cssText startMarker = false := by
        intro k r hk1 hk2 hkr
        have hget : ((s.cssRules.take (j + 1)).drop (e + 1)).get? (k - (e + 1)) = some r := by
          rw [List.get?_drop]
          have hplus : e + 1 + (k - (e + 1)) = k := by omega
          rw [hplus, List.get?_take (by omega : k < j + 1)]
          exact hkr
        have := List.all_eq_true.mp hall r (List.get?_mem hget)
        simpa using this
      exact activateScanAux_end_skip w s.cssRules.length 0 false s none e j re
        (Nat.zero_le e) hej hge hmatch hns

/-- Witness for C3: a one-rule sheet holding a replaceable width rule
with no markers anywhere; the rule is untouched at width 320. -/
theorem claim3_witness :
    (noStartMarkerBelow
        { href := some ("https://example.com/a.css"),
          cssRules := [{ cssText := "@media (min-width:600px) \x7b\x7d",
                         media := some ("(min-width:600px)") }] } 0 = true ∨
      ∃ e, endThenNoStart
        { href := some ("https://example.com/a.css"),
          cssRules := [{ cssText := "@media (min-width:600px) \x7b\x7d",
                         media := some ("(min-width:600px)") }] } e 0 = true) ∧
    (activateSheet 320
        { href := some ("https://example.com/a.css"),
          cssRules := [{ cssText := "@media (min-width:600px) \x7b\x7d",
                         media := some ("(min-width:600px)") }] }).1.cssRules.get? 0
      = ({ href := some ("https://example.com/a.css"),
           cssRules := [{ cssText := "@media (min-width:600px) \x7b\x7d",
                          media := some ("(min-width:600px)") }] } : StyleSheet).cssRules.get? 0 :=
  ⟨Or.inl (by decide), claim3_region_scoping 320 _ 0 (Or.inl (by decide))⟩

/-- Claim C9: when the rule at index `p` contains the start marker and no
rule from `p` through `j` contains the end marker (an unterminated
region), every replaceable width-based media rule at an index `j ≥ p` is
rewritten to its width evaluation — the region stays open to the end of
the sheet. -/
theorem claim9_unterminated_region (w : Nat) (s : StyleSheet) (p j : Nat) (rp rj : Rule)
    (hp : s.cssRules.get? p = some rp)
    (hstart : strIncludes rp.cssText startMarker = true)
    (hpj : p ≤ j)
    (hj : s.cssRules.get? j = some rj)
    (hrep : isReplaceableMediaRule rj = true)
    (hnoend : ((s.cssRules.take (j + 1)).drop p).all
        (fun r => !(strIncludes r.cssText endMarker)) = true) :
    (activateSheet w s).1.cssRules.get? j
      = some (parseRule (replaceMediaQueryWithWidthEvaluation rj.cssText w)) := by
  have hne : ∀ k r, p ≤ k → k ≤ j → s.cssRules.get? k = some r →
      strIncludes r.cssText endMarker = false := by
    intro k r hk1 hk2 hkr
    have hget : ((s.cssRules.take (j + 1)).drop p).get? (k - p) = some r := by
      rw [List.get?_drop]
      have hplus : p + (k - p) = k := by omega
      rw [hplus, List.get?_take (by omega : k < j + 1)]
      exact hkr
    have := List.all_eq_true.mp hnoend r (List.get?_mem hget)
    simpa using this
  exact activateScanAux_reach w s.cssRules.length 0 false s none p j rp rj
    (Nat.zero_le p) hpj (by have := lk_get?_some_lt _ _ _ hj; omega) hp hstart hj hrep hne

/-- Witness for C9: a sheet whose first rule carries the start marker and
whose second rule is a replaceable width rule, with no end marker in the
sheet; at width 320 the second rule is rewritten to the disabled form. -/
theorem claim9_witness :
    ({ href := some ("https://example.com/a.css"),
       cssRules := [{ cssText := "/* #start-resizable-editor-section */", media := none },
                    { cssText := "@media (min-width:600px) \x7b\x7d",
                      media := some ("(min-width:600px)") }] } : StyleSheet).cssRules.get? 0
      = some { cssText := "/* #start-resizable-editor-section */", media := none } ∧
    (activateSheet 320
        { href := some ("https://example.com/a.css"),
          cssRules := [{ cssText := "/* #start-resizable-editor-section */", media := none },
                       { cssText := "@media (min-width:600px) \x7b\x7d",
                         media := some ("(min-width:600px)") }] }).1.cssRules.get? 1
      = some (parseRule (replaceMediaQueryWithWidthEvaluation
          ("@media (min-width:600px) \x7b\x7d") 320)) :=
  ⟨by decide,
   claim9_unterminated_region 320 _ 0 1
     { cssText := "/* #start-resizable-editor-section */", media := none }
     { cssText := "@media (min-width:600px) \x7b\x7d", media := some ("(min-width:600px)") }
     (by decide) (by decide) (by decide) (by decide) (by decide) (by decide)⟩

/-- Claim C8: the rule containing the end marker is itself never
rewritten (the region flag is cleared before that rule is considered),
while a rule containing the start marker (and not the end marker) is
itself rewritten in the same pass when it is a replaceable media rule. -/
theorem claim8_marker_rule_asymmetry (w : Nat) (s : StyleSheet) (j₁ j₂ : Nat) (r₁ r₂ : Rule)
    (h1 : s.cssRules.get? j₁ = some r₁)
    (he1 : strIncludes r₁.cssText endMarker = true)
    (h2 : s.cssRules.get? j₂ = some r₂)
    (hs2 : strIncludes r₂.cssText startMarker = true)
    (he2 : strIncludes r₂.cssText endMarker = false)
    (hrep : isReplaceableMediaRule r₂ = true) :
    (activateSheet w s).1.cssRules.get? j₁ = some r₁ ∧
    (activateSheet w s).1.cssRules.get? j₂
      = some (parseRule (replaceMediaQueryWithWidthEvaluation r₂.cssText w)) := by
  constructor
  · have hskip := activateScanAux_end_skip w s.cssRules.length 0 false s none j₁ j₁ r₁
      (Nat.zero_le j₁) (Nat.le_refl j₁) h1 he1 (fun k r hk1 hk2 _ => by omega)
    exact hskip.trans h1
  · exact activateScanAux_reach w s.cssRules.length 0 false s none j₂ j₂ r₂ r₂
      (Nat.zero_le j₂) (Nat.le_refl j₂) (by have := lk_get?_some_lt _ _ _ h2; omega)
      h2 hs2 h2 hrep
      (fun k r hk1 hk2 hkr => by
        have hkj : k = j₂ := by omega
        subst hkj
        rw [h2] at hkr
        have hrr := Option.some.inj hkr
        rw [← hrr]
        exact he2)

/-- Witness for C8: a sheet whose rule 0 carries the start marker inside
a replaceable media rule (it gets rewritten) and whose rule 1 carries
the end marker (it stays untouched), at width 320. -/
theorem claim8_witness :
    ({ href := some ("https://example.com/a.css"),
       cssRules :=
         [{ cssText := "@media (min-width:600px) \x7b /* #start-resizable-editor-section */ \x7d",
            media := some ("(min-width:600px)") },
          { cssText := "/* #end-resizable-editor-section */", media := none }] }
        : StyleSheet).cssRules.get? 1
      = some { cssText := "/* #end-resizable-editor-section */", media := none } ∧
    ((activateSheet 320
        { href := some ("https://example.com/a.css"),
          cssRules :=
            [{ cssText := "@media (min-width:600px) \x7b /* #start-resizable-editor-section */ \x7d",
               media := some ("(min-width:600px)") },
             { cssText := "/* #end-resizable-editor-section */", media := none }] }).1.cssRules.get? 1
      = some { cssText := "/* #end-resizable-editor-section */", media := none } ∧
    (activateSheet 320
        { href := some ("https://example.com/a.css"),
          cssRules :=
            [{ cssText := "@media (min-width:600px) \x7b /* #start-resizable-editor-section */ \x7d",
               media := some ("(min-width:600px)") },
             { cssText := "/* #end-resizable-editor-section */", media := none }] }).1.cssRules.get? 0
      = some (parseRule (replaceMediaQueryWithWidthEvaluation
          ("@media (min-width:600px) \x7b /* #start-resizable-editor-section */ \x7d") 320))) :=
  ⟨by decide,
   claim8_marker_rule_asymmetry 320 _ 1 0
     { cssText := "/* #end-resizable-editor-section */", media := none }
     { cssText := "@media (min-width:600px) \x7b /* #start-resizable-editor-section */ \x7d",
       media := some ("(min-width:600px)") }
     (by decide) (by decide) (by decide) (by decide) (by decide) (by decide)⟩

/-- Claim C10: replacing a rule at an in-range index (delete then insert
at the same index) preserves the sheet's total rule count; so do a whole
activation pass and the restoration of its saved originals. -/
theorem claim10_rule_count_stability (w : Nat) (s : StyleSheet) (t : String) (i : Nat)
    (h : i < s.cssRules.length) :
    (replaceRule s t i).cssRules.length = s.cssRules.length ∧
    (activateSheet w s).1.cssRules.length = s.cssRules.length ∧
    (restoreSheet ((activateSheet w s).2.getD []) (activateSheet w s).1).cssRules.length
      = s.cssRules.length := by
  refine ⟨replaceRule_length s t i h, (activateSheet_inv w s).len_eq, ?_⟩
  cases ho : (activateSheet w s).2 with
  | none =>
    show (restoreSheet [] (activateSheet w s).1).cssRules.length = _
    exact (activateSheet_inv w s).len_eq
  | some coll =>
    show (restoreSheet coll (activateSheet w s).1).cssRules.length = _
    rw [restoreSheet_length coll _ (activateSheet_coll_range w s coll ho)]
    exact (activateSheet_inv w s).len_eq

/-- Witness for C10 on a one-rule sheet at width 320. -/
theorem claim10_witness :
    (0 : Nat) <
      ({ href := some ("https://example.com/a.css"),
         cssRules := [{ cssText := "@media (min-width:600px) \x7b\x7d",
                        media := some ("(min-width:600px)") }] } : StyleSheet).cssRules.length ∧
    ((replaceRule
        { href := some ("https://example.com/a.css"),
          cssRules := [{ cssText := "@media (min-width:600px) \x7b\x7d",
                         media := some ("(min-width:600px)") }] } ("x") 0).cssRules.length
      = ({ href := some ("https://example.com/a.css"),
           cssRules := [{ cssText := "@media (min-width:600px) \x7b\x7d",
                          media := some ("(min-width:600px)") }] } : StyleSheet).cssRules.length ∧
    (activateSheet 320
        { href := some ("https://example.com/a.css"),
          cssRules := [{ cssText := "@media (min-width:600px) \x7b\x7d",
                         media := some ("(min-width:600px)") }] }).1.cssRules.length
      = ({ href := some ("https://example.com/a.css"),
           cssRules := [{ cssText := "@media (min-width:600px) \x7b\x7d",
                          media := some ("(min-width:600px)") }] } : StyleSheet).cssRules.length ∧
    (restoreSheet ((activateSheet 320
        { href := some ("https://example.com/a.css"),
          cssRules := [{ cssText := "@media (min-width:600px) \x7b\x7d",
                         media := some ("(min-width:600px)") }] }).2.getD [])
      (activateSheet 320
        { href := some ("https://example.com/a.css"),
          cssRules := [{ cssText := "@media (min-width:600px) \x7b\x7d",
                         media := some ("(min-width:600px)") }] }).1).cssRules.length
      = ({ href := some ("https://example.com/a.css"),
           cssRules := [{ cssText := "@media (min-width:600px) \x7b\x7d",
                          media := some ("(min-width:600px)") }] } : StyleSheet).cssRules.length) :=
  ⟨by decide, claim10_rule_count_stability 320 _ ("x") 0 (by decide)⟩

/-- Claim C4: a stylesheet whose href does not satisfy the hostname test
is never mutated by activation or by deactivation, is not selected into
the matched index list, and is not in the filtered sheet list. -/
theorem claim4_host_filtering (host : String) (w : Nat) (doc : List StyleSheet) (i : Nat)
    (s : StyleSheet) (origs : List (Option (List (Option String)))) (d : List StyleSheet)
    (hs : doc.get? i = some s)
    (hm : sheetMatchesHostname host s = false) :
    (activateDoc host w doc).1.get? i = some s ∧
    (deactivateDoc (matchedIndices host doc) origs d).get? i = d.get? i ∧
    i ∉ matchedIndices host doc ∧
    s ∉ getStyleSheetsThatMatchHostname host doc := by
  have hni : i ∉ matchedIndices host doc := by
    intro hmem
    obtain ⟨hlt, hmatch⟩ := (mem_matchedIndices host doc i).mp hmem
    rw [hs] at hmatch
    dsimp only at hmatch
    rw [hm] at hmatch
    exact absurd hmatch (by simp)
  refine ⟨?_, ?_, hni, ?_⟩
  · unfold activateDoc
    rw [activateDocGo_get?_of_notMem w _ doc [] i hni]
    exact hs
  · exact deactivateDocGo_get?_of_notMem origs _ d i hni
  · intro hmem
    unfold getStyleSheetsThatMatchHostname at hmem
    have hpm := (List.mem_filter.mp hmem).2
    rw [hm] at hpm
    exact absurd hpm (by simp)

/-- Witness for C4: a document holding one cross-origin sheet, with an
arbitrary saved-originals array and document for the cleanup side. -/
theorem claim4_witness :
    ([{ href := some ("https://cdn.other.org/b.css"),
        cssRules := [{ cssText := "@media (min-width:600px) \x7b\x7d",
                       media := some ("(min-width:600px)") }] }] : List StyleSheet).get? 0
      = some { href := some ("https://cdn.other.org/b.css"),
               cssRules := [{ cssText := "@media (min-width:600px) \x7b\x7d",
                              media := some ("(min-width:600px)") }] } ∧
    sheetMatchesHostname ("example.com")
      { href := some ("https://cdn.other.org/b.css"),
        cssRules := [{ cssText := "@media (min-width:600px) \x7b\x7d",
                       media := some ("(min-width:600px)") }] } = false ∧
    ((activateDoc ("example.com") 320
        [{ href := some ("https://cdn.other.org/b.css"),
           cssRules := [{ cssText := "@media (min-width:600px) \x7b\x7d",
                          media := some ("(min-width:600px)") }] }]).1.get? 0
      = some { href := some ("https://cdn.other.org/b.css"),
               cssRules := [{ cssText := "@media (min-width:600px) \x7b\x7d",
                              media := some ("(min-width:600px)") }] } ∧
    (deactivateDoc (matchedIndices ("example.com")
        [{ href := some ("https://cdn.other.org/b.css"),
           cssRules := [{ cssText := "@media (min-width:600px) \x7b\x7d",
                          media := some ("(min-width:600px)") }] }]) [some [some ("x")]]
        [{ href := some ("https://cdn.other.org/b.css"),
           cssRules := [{ cssText := "@media (min-width:600px) \x7b\x7d",
                          media := some ("(min-width:600px)") }] }]).get? 0
      = ([{ href := some ("https://cdn.other.org/b.css"),
            cssRules := [{ cssText := "@media (min-width:600px) \x7b\x7d",
                           media := some ("(min-width:600px)") }] }] : List StyleSheet).get? 0 ∧
    0 ∉ matchedIndices ("example.com")
        [{ href := some ("https://cdn.other.org/b.css"),
           cssRules := [{ cssText := "@media (min-width:600px) \x7b\x7d",
                          media := some ("(min-width:600px)") }] }] ∧
    { href := some ("https://cdn.other.org/b.css"),
      cssRules := [{ cssText := "@media (min-width:600px) \x7b\x7d",
                     media := some ("(min-width:600px)") }] }
      ∉ getStyleSheetsThatMatchHostname ("example.com")
        [{ href := some ("https://cdn.other.org/b.css"),
           cssRules := [{ cssText := "@media (min-width:600px) \x7b\x7d",
                          media := some ("(min-width:600px)") }] }]) :=
  ⟨by decide, by decide,
   claim4_host_filtering ("example.com") 320 _ 0 _ [some [some ("x")]] _ (by decide) (by decide)⟩

theorem matchedIndices_get?_sheet (host : String) (doc : List StyleSheet) (fi i : Nat)
    (hfi : (matchedIndices host doc).get? fi = some i) :
    ∃ s0, doc.get? i = some s0 ∧ sheetMatchesHostname host s0 = true := by
  have hmem : i ∈ matchedIndices host doc := List.get?_mem hfi
  obtain ⟨hlt, hmatch⟩ := (mem_matchedIndices host doc i).mp hmem
  cases hd : doc.get? i with
  | none => rw [hd] at hmatch; simp at hmatch
  | some s0 =>
    rw [hd] at hmatch
    exact ⟨s0, rfl, hmatch⟩

theorem activateDoc_fi_entry (host : String) (w : Nat) (doc : List StyleSheet)
    (fi i : Nat) (s0 : StyleSheet)
    (hfi : (matchedIndices host doc).get? fi = some i)
    (hd : doc.get? i = some s0) :
    (activateDoc host w doc).2.get? fi = some ((activateSheet w s0).2) ∧
    (activateDoc host w doc).1.get? i = some ((activateSheet w s0).1) := by
  have hnd := matchedIndices_nodup host doc
  obtain ⟨hacc, hget⟩ := activateDocGo_spec w (matchedIndices host doc) doc [] hnd
  have hmem : i ∈ matchedIndices host doc := List.get?_mem hfi
  constructor
  · show (activateDocGo w (matchedIndices host doc) doc []).2.get? fi = _
    rw [hacc]
    simp only [List.nil_append, List.get?_map, hfi, Option.map_some']
    rw [hd]
  · show (activateDocGo w (matchedIndices host doc) doc []).1.get? i = _
    rw [hget i hmem, hd]

/-- Claim C6: after activation, the saved-original entry keyed by
(stylesheet index `fi`, rule index `j`) — when it exists — records
exactly the pre-activation text of the rule at that position, and the
rule now installed there is the width evaluation of that text; a
position with no entry holds its original rule unchanged, so no entry
exists for a rule that was not rewritten. -/
theorem claim6_saved_original_invariant (host : String) (w : Nat) (doc : List StyleSheet)
    (fi i j : Nat)
    (hfi : (matchedIndices host doc).get? fi = some i) :
    ((origEntry (activateDoc host w doc).2 fi j).isSome = true →
      origEntry (activateDoc host w doc).2 fi j = (docRule doc i j).map Rule.cssText ∧
      docRule (activateDoc host w doc).1 i j
        = (origEntry (activateDoc host w doc).2 fi j).map
            (fun t => parseRule (replaceMediaQueryWithWidthEvaluation t w))) ∧
    (origEntry (activateDoc host w doc).2 fi j = none →
      docRule (activateDoc host w doc).1 i j = docRule doc i j) := by
  obtain ⟨s0, hd, _⟩ := matchedIndices_get?_sheet host doc fi i hfi
  obtain ⟨hp2, hp1⟩ := activateDoc_fi_entry host w doc fi i s0 hfi hd
  have hinv := activateSheet_inv w s0
  have hE : origEntry (activateDoc host w doc).2 fi j
      = sparseGetO (activateSheet w s0).2 j := by
    unfold origEntry
    rw [hp2]
    cases (activateSheet w s0).2 <;> rfl
  have hdr1 : docRule (activateDoc host w doc).1 i j
      = (activateSheet w s0).1.cssRules.get? j := by
    unfold docRule
    rw [hp1]
  have hdr0 : docRule doc i j = s0.cssRules.get? j := by
    unfold docRule
    rw [hd]
  constructor
  · intro hsome
    rw [hE] at hsome
    cases hO : sparseGetO (activateSheet w s0).2 j with
    | none => rw [hO] at hsome; simp at hsome
    | some t =>
      obtain ⟨hjlt, ⟨r0, hr0, ht0⟩, hcur⟩ := hinv.saved j t hO
      constructor
      · rw [hE, hO, hdr0, hr0]
        simp only [Option.map_some']
        rw [ht0]
      · rw [hE, hO, hdr1, hcur]
        rfl
  · intro hnone
    rw [hE] at hnone
    rw [hdr1, hdr0, hinv.unsaved j hnone]

/-- Witness for C6: a document with one same-host sheet whose rule 1 is a
replaceable width rule inside the marked region. -/
theorem claim6_witness :
    (matchedIndices ("example.com")
        [{ href := some ("https://example.com/a.css"),
           cssRules := [{ cssText := "/* #start-resizable-editor-section */", media := none },
                        { cssText := "@media (min-width:600px) \x7b\x7d",
                          media := some ("(min-width:600px)") }] }]).get? 0 = some 0 ∧
    (((origEntry (activateDoc ("example.com") 320
        [{ href := some ("https://example.com/a.css"),
           cssRules := [{ cssText := "/* #start-resizable-editor-section */", media := none },
                        { cssText := "@media (min-width:600px) \x7b\x7d",
                          media := some ("(min-width:600px)") }] }]).2 0 1).isSome = true →
      origEntry (activateDoc ("example.com") 320
        [{ href := some ("https://example.com/a.css"),
           cssRules := [{ cssText := "/* #start-resizable-editor-section */", media := none },
                        { cssText := "@media (min-width:600px) \x7b\x7d",
                          media := some ("(min-width:600px)") }] }]).2 0 1
        = (docRule
            [{ href := some ("https://example.com/a.css"),
               cssRules := [{ cssText := "/* #start-resizable-editor-section */", media := none },
                            { cssText := "@media (min-width:600px) \x7b\x7d",
                              media := some ("(min-width:600px)") }] }] 0 1).map Rule.cssText ∧
      docRule (activateDoc ("example.com") 320
        [{ href := some ("https://example.com/a.css"),
           cssRules := [{ cssText := "/* #start-resizable-editor-section */", media := none },
                        { cssText := "@media (min-width:600px) \x7b\x7d",
                          media := some ("(min-width:600px)") }] }]).1 0 1
        = (origEntry (activateDoc ("example.com") 320
            [{ href := some ("https://example.com/a.css"),
               cssRules := [{ cssText := "/* #start-resizable-editor-section */", media := none },
                            { cssText := "@media (min-width:600px) \x7b\x7d",
                              media := some ("(min-width:600px)") }] }]).2 0 1).map
            (fun t => parseRule (replaceMediaQueryWithWidthEvaluation t 320))) ∧
    (origEntry (activateDoc ("example.com") 320
        [{ href := some ("https://example.com/a.css"),
           cssRules := [{ cssText := "/* #start-resizable-editor-section */", media := none },
                        { cssText := "@media (min-width:600px) \x7b\x7d",
                          media := some ("(min-width:600px)") }] }]).2 0 1 = none →
      docRule (activateDoc ("example.com") 320
        [{ href := some ("https://example.com/a.css"),
           cssRules := [{ cssText := "/* #start-resizable-editor-section */", media := none },
                        { cssText := "@media (min-width:600px) \x7b\x7d",
                          media := some ("(min-width:600px)") }] }]).1 0 1
        = docRule
            [{ href := some ("https://example.com/a.css"),
               cssRules := [{ cssText := "/* #start-resizable-editor-section */", media := none },
                            { cssText := "@media (min-width:600px) \x7b\x7d",
                              media := some ("(min-width:600px)") }] }] 0 1)) :=
  ⟨by decide, claim6_saved_original_invariant ("example.com") 320 _ 0 0 1 (by decide)⟩

/-- Claim C2: activate-then-deactivate restores every rule text: for
every document, target width and sheet position, the sequence of rule
texts after the round trip is character-identical, position by position,
to the pre-activation sequence. -/
theorem claim2_roundtrip (host : String) (w : Nat) (doc : List StyleSheet) (i : Nat) :
    ((deactivateDoc (matchedIndices host doc) (activateDoc host w doc).2
        (activateDoc host w doc).1).get? i).map sheetTexts
      = (doc.get? i).map sheetTexts := by
  have hnd := matchedIndices_nodup host doc
  unfold deactivateDoc
  by_cases hm : i ∈ matchedIndices host doc
  · obtain ⟨fi, hfi⟩ := List.mem_iff_get?.mp hm
    obtain ⟨s0, hd, _⟩ := matchedIndices_get?_sheet host doc fi i hfi
    obtain ⟨hp2, hp1⟩ := activateDoc_fi_entry host w doc fi i s0 hfi hd
    cases ho : (activateSheet w s0).2 with
    | none =>
      have hhole := deactivateDocGo_get?_hole (activateDoc host w doc).2
        (matchedIndices host doc) (activateDoc host w doc).1 fi i hnd hfi
        (Or.inr (by rw [hp2, ho]))
      rw [hhole, hp1, hd, activateSheet_none w s0 ho]
    | some coll =>
      have hentry := deactivateDocGo_get?_entry (activateDoc host w doc).2
        (matchedIndices host doc) (activateDoc host w doc).1 fi i coll hnd
        (by rw [hp2, ho]) hfi
      rw [hentry, hp1, hd]
      simp only [Option.map_some']
      exact congrArg some (sheetTexts_ext _ _ (activateSheet_roundtrip_texts w s0 coll ho))
  · have h1 := deactivateDocGo_get?_of_notMem (activateDoc host w doc).2
      (matchedIndices host doc) (activateDoc host w doc).1 i hm
    have h2 : (activateDoc host w doc).1.get? i = doc.get? i := by
      show (activateDocGo w (matchedIndices host doc) doc []).1.get? i = _
      exact activateDocGo_get?_of_notMem w _ doc [] i hm
    rw [h1, h2]

/-- Claim C7: the cleanup is idempotent: running it with an empty
saved-originals array (nothing was ever activated) is a no-op on any
document, and running it twice after one activation produces the same
end state as running it once. -/
theorem claim7_deactivate_idempotent (host : String) (w : Nat) (doc : List StyleSheet) :
    (∀ (idxs : List Nat) (d : List StyleSheet), deactivateDoc idxs [] d = d) ∧
    deactivateDoc (matchedIndices host doc) (activateDoc host w doc).2
        (deactivateDoc (matchedIndices host doc) (activateDoc host w doc).2
          (activateDoc host w doc).1)
      = deactivateDoc (matchedIndices host doc) (activateDoc host w doc).2
          (activateDoc host w doc).1 := by
  constructor
  · intro idxs d
    rfl
  · have hnd := matchedIndices_nodup host doc
    unfold deactivateDoc
    apply List.ext_get?
    intro i
    by_cases hm : i ∈ matchedIndices host doc
    · obtain ⟨fi, hfi⟩ := List.mem_iff_get?.mp hm
      obtain ⟨s0, hd, _⟩ := matchedIndices_get?_sheet host doc fi i hfi
      obtain ⟨hp2, hp1⟩ := activateDoc_fi_entry host w doc fi i s0 hfi hd
      cases ho : (activateSheet w s0).2 with
      | none =>
        exact deactivateDocGo_get?_hole _ _ _ fi i hnd hfi (Or.inr (by rw [hp2, ho]))
      | some coll =>
        have hin : (activateDoc host w doc).2.get? fi = some (some coll) := by
          rw [hp2, ho]
        have hd1 := deactivateDocGo_get?_entry (activateDoc host w doc).2
          (matchedIndices host doc) (activateDoc host w doc).1 fi i coll hnd hin hfi
        have hd2 := deactivateDocGo_get?_entry (activateDoc host w doc).2
          (matchedIndices host doc)
          (deactivateDocGo (activateDoc host w doc).2 (matchedIndices host doc)
            (activateDoc host w doc).1) fi i coll hnd hin hfi
        rw [hd2, hd1, hp1]
        simp only [Option.map_some']
        exact congrArg some
          (restoreSheet_idem coll _ (activateSheet_coll_range w s0 coll ho))
    · exact deactivateDocGo_get?_of_notMem _ _ _ i hm

end MediaSim
